import Mathlib

/-!
Verification of the starparse codec (pack.py / unpack.py).

This file gives a shallow embedding of the starparse encoder and decoder and
proves properties of it.  Conventions used throughout:

* A Python `bytes` / `bytearray` value is a `List Nat` of byte values.
* A Python `str` is a `List Nat` of Unicode code points.
* A Python `float` is represented by its 8-byte big-endian IEEE-754 bit
  pattern (a `List Nat` of length 8): `struct.pack('>d', x)` is a bijection
  between doubles and such byte blocks and `unpack`/`pack` round-trips the
  bits exactly, so nothing is lost by working with the pattern itself.
* Python bitwise operations on non-negative ints are translated
  arithmetically: `x & 127` is `x % 128`, `x >> 7` is `x / 128`,
  `x & 127 | 128` is `x % 128 + 128` (the operands have disjoint bits), and
  the test `x & 128 != 0` is `x / 128 % 2 = 1` (bit 7 of `x`).
* Code that can raise returns `Except`; each Python exception class that can
  escape a codec function is a distinct error constructor.
* The `while` loops of the VLQ codec and the mutual recursion of the
  list/map decoder are embedded with an explicit fuel argument (Python's
  loops terminate because each iteration consumes input or raises; the
  wrappers pass fuel that provably exceeds what a buffer of the given
  length can consume, and lemmas below never rely on fuel exhaustion).
-/

/-- The three process-wide switches of config.py, passed explicitly.
Defaults in the source: UTF8 = False, BYTE_STRUCT = False,
ORDERED_DICT = True. -/
structure Config where
  UTF8 : Bool
  BYTE_STRUCT : Bool
  ORDERED_DICT : Bool
deriving DecidableEq

/-- The configuration with every switch at its config.py default. -/
def defaultConfig : Config := ⟨false, false, true⟩

/-- Exceptions that can escape a pack.py function.  `PackingError` is the
module's typed error; messages are not modeled. -/
inductive PackErr where
  | packingError : PackErr
deriving DecidableEq

/-- Exceptions that can escape an unpack.py function.
`unpackingError` is the module's typed `UnpackingError`;
`indexError` is Python's builtin `IndexError` (out-of-range `buffer[offset]`);
`structError` is `struct.error` from `unpack_from` (buffer too short for the
format); `unicodeDecodeError` is Python's builtin `UnicodeDecodeError`
(raised by the uncaught UTF-8 fallback decode); `fuelExhausted` is an
artifact of the fuel embedding and is unreachable through the wrappers. -/
inductive UnpackErr where
  | unpackingError : UnpackErr
  | indexError : UnpackErr
  | structError : UnpackErr
  | unicodeDecodeError : UnpackErr
  | fuelExhausted : UnpackErr
deriving DecidableEq

/-- The seven Python types listed in the codec's dispatch tables:
`(type(None), float, bool, int, str, list, dict)` (OrderedDict is mapped to
the same tag as dict). -/
inductive PyType where
  | tNone : PyType
  | tFloat : PyType
  | tBool : PyType
  | tInt : PyType
  | tStr : PyType
  | tList : PyType
  | tDict : PyType
deriving DecidableEq

/-- unpack.type_'s table `types = [None, float, bool, int, str, list, dict]`. -/
def pyTypes : List PyType :=
  [.tNone, .tFloat, .tBool, .tInt, .tStr, .tList, .tDict]

/-- pack.type_'s table `dict(zip((type(None), float, bool, int, str, list,
dict), range(1, 8)))`. -/
def pyTypeTag : PyType → Nat
  | .tNone => 1
  | .tFloat => 2
  | .tBool => 3
  | .tInt => 4
  | .tStr => 5
  | .tList => 6
  | .tDict => 7

/-- Python list indexing `l[i]` with an `int` index: a negative index counts
from the end (`l[-1]` is the last element); out of range on either side is an
`IndexError`, here `none`. -/
def pyListGet (l : List PyType) (i : Int) : Option PyType :=
  if 0 ≤ i then l[i.toNat]?
  else if 0 ≤ (l.length : Int) + i then l[((l.length : Int) + i).toNat]?
  else none

/- The tagged-value tree: the recursive union of the seven wire variants.
Mirrors the Python values the codec manipulates (`SBT = Union[str, int,
float, list, dict, OrderedDict]` plus `None` and `bool`).  Maps are ordered
association lists: both `dict` and `OrderedDict` in the source's Python
preserve insertion order and overwrite values in place. -/
mutual
inductive SBT where
  | null : SBT
  | float (bits : List Nat) : SBT
  | bool (b : Bool) : SBT
  | int (n : Int) : SBT
  | str (s : List Nat) : SBT
  | list (xs : SBTList) : SBT
  | dict (es : SBTDict) : SBT
inductive SBTList where
  | nil : SBTList
  | cons (x : SBT) (xs : SBTList) : SBTList
inductive SBTDict where
  | nil : SBTDict
  | cons (k : List Nat) (v : SBT) (es : SBTDict) : SBTDict
end

/-- Python `len` of a list. -/
def SBTList.length : SBTList → Nat
  | .nil => 0
  | .cons _ xs => xs.length + 1

/-- Python `len` of a dict (number of entries). -/
def SBTDict.length : SBTDict → Nat
  | .nil => 0
  | .cons _ _ es => es.length + 1

/-- Membership test `k in d` for a Python dict. -/
def SBTDict.hasKey : SBTDict → List Nat → Bool
  | .nil, _ => false
  | .cons k _ es, key => k = key || es.hasKey key

/-- Assignment `d[key] = v` on a Python dict (and on OrderedDict, which also keeps an
existing key at its original position): overwrite in place if the key is
present, else append. -/
def SBTDict.setItem : SBTDict → List Nat → SBT → SBTDict
  | .nil, key, v => .cons key v .nil
  | .cons k w es, key, v =>
      if k = key then .cons k v es else .cons k w (es.setItem key v)

/-- Concatenation of two association lists (used only in proofs about
`setItem`). -/
def SBTDict.append : SBTDict → SBTDict → SBTDict
  | .nil, e => e
  | .cons k v es, e => .cons k v (es.append e)

/- Well-formedness of a value tree as a Python value: float bit patterns
are 8 bytes, and dict keys are distinct within each map (Python dicts cannot
hold duplicate keys). -/
mutual
def SBT.valid : SBT → Bool
  | .null => true
  | .float bits => bits.length == 8
  | .bool _ => true
  | .int _ => true
  | .str _ => true
  | .list xs => xs.valid
  | .dict es => es.valid
def SBTList.valid : SBTList → Bool
  | .nil => true
  | .cons x xs => x.valid && xs.valid
def SBTDict.valid : SBTDict → Bool
  | .nil => true
  | .cons k v es => !(es.hasKey k) && v.valid && es.valid
end

/-!  ## The VLQ unsigned-integer encoder (pack.uint)  -/

/-- The `while value:` loop of pack.uint: prepend `value & 127 | 128` and
shift `value` right by 7 until it is zero.  `fuel` bounds the iteration
count; every caller passes `fuel ≥ value`, which suffices because the value
at least halves each round, so the exhaustion branch is unreachable. -/
def uintPackLoop (fuel value : Nat) (acc : List Nat) : List Nat :=
  if value = 0 then acc
  else
    match fuel with
    | 0 => acc
    | f + 1 => uintPackLoop f (value / 128) ((value % 128 + 128) :: acc)

/-- pack.uint on a non-negative value: emit the low 7 bits bare, then prepend
the higher 7-bit groups with the continuation bit 0x80 set. -/
def uintEncode (n : Nat) : List Nat :=
  uintPackLoop (n / 128) (n / 128) [n % 128]

/-- pack.uint: packing a negative value is a `PackingError`. -/
def Pack.uint (value : Int) : Except PackErr (List Nat) :=
  if value < 0 then .error .packingError
  else .ok (uintEncode value.toNat)

/-- pack.int_: fold the sign in, `value_ = abs(value * 2)`, minus one when
the value is negative, then pack as unsigned. -/
def Pack.int_ (value : Int) : Except PackErr (List Nat) :=
  let value_ : Nat := (value * 2).natAbs
  let value_ : Nat := if value < 0 then value_ - 1 else value_
  Pack.uint (value_ : Int)

/-!  ## The VLQ unsigned-integer decoder (unpack.uint)  -/

/-- The read loop of unpack.uint (the same loop is duplicated inline in
unpack.int_): read `buffer[offset]` (IndexError past the end), accumulate
`value = (value << 7) | (byte & 127)`, and stop after the first byte whose
continuation bit 0x80 is clear.  `fuel` bounds the iteration count; the
wrappers pass `buffer.length + 1`, which the loop can never consume because
each iteration moves `offset` forward and the loop stops with an IndexError
once `offset` passes the end. -/
def uintUnpackGo (buffer : List Nat) (offset value : Nat) :
    Nat → Except UnpackErr (Nat × Nat)
  | 0 => .error .fuelExhausted
  | fuel + 1 =>
    match buffer[offset]? with
    | none => .error .indexError
    | some tmp =>
      if tmp / 128 % 2 = 1 then
        uintUnpackGo buffer (offset + 1) (value * 128 + tmp % 128) fuel
      else .ok (value * 128 + tmp % 128, offset + 1)

/-- unpack.uint. -/
def Unpack.uint (buffer : List Nat) (offset : Nat) :
    Except UnpackErr (Nat × Nat) :=
  uintUnpackGo buffer offset 0 (buffer.length + 1)

/-- unpack.int_: read the unsigned value with the same loop, then undo the
zig-zag: odd `value` means `-(value >> 1) - 1`, even means `value >> 1`. -/
def Unpack.int_ (buffer : List Nat) (offset : Nat) :
    Except UnpackErr (Int × Nat) :=
  match uintUnpackGo buffer offset 0 (buffer.length + 1) with
  | .error e => .error e
  | .ok (value, offset) =>
    if value % 2 = 1 then .ok (-(((value / 2 + 1 : Nat) : Int)), offset)
    else .ok (((value / 2 : Nat) : Int), offset)

/-!  ## String encodings (Python codecs 'ascii' and 'utf-8')  -/

/-- Encoding `bytearray(s, 'ascii')` succeeds exactly when every code point is below
128, and then the bytes are the code points themselves. -/
def asciiEncodable (s : List Nat) : Bool := s.all (fun c => c < 128)

/-- Encoding `bytearray(s, 'utf-8')` for one code point: the standard 1-4 byte UTF-8
sequence (leading-byte markers and 6-bit continuation payloads written
additively, the or-ed bit fields being disjoint). -/
def utf8EncodeChar (c : Nat) : List Nat :=
  if c < 0x80 then [c]
  else if c < 0x800 then [0xC0 + c / 64, 0x80 + c % 64]
  else if c < 0x10000 then
    [0xE0 + c / 4096, 0x80 + c / 64 % 64, 0x80 + c % 64]
  else
    [0xF0 + c / 262144, 0x80 + c / 4096 % 64, 0x80 + c / 64 % 64,
     0x80 + c % 64]

/-- Encoding `bytearray(s, 'utf-8')` for a whole string. -/
def utf8Encode (s : List Nat) : List Nat :=
  (s.map utf8EncodeChar).flatten

/-- Decoding `bs.decode('utf-8')` (strict, as Python's default error handler):
consume one UTF-8 sequence, checking continuation bytes, rejecting overlong
forms, surrogates and code points above 0x10FFFF; `none` is a
`UnicodeDecodeError`. -/
def utf8Decode : List Nat → Option (List Nat)
  | [] => some []
  | b :: rest =>
    if b < 0x80 then
      match utf8Decode rest with
      | some s => some (b :: s)
      | none => none
    else if 0xC2 ≤ b ∧ b ≤ 0xDF then
      match rest with
      | c1 :: rest' =>
        if 0x80 ≤ c1 ∧ c1 ≤ 0xBF then
          match utf8Decode rest' with
          | some s => some (((b - 0xC0) * 64 + (c1 - 0x80)) :: s)
          | none => none
        else none
      | [] => none
    else if 0xE0 ≤ b ∧ b ≤ 0xEF then
      match rest with
      | c1 :: c2 :: rest' =>
        if 0x80 ≤ c1 ∧ c1 ≤ 0xBF ∧ 0x80 ≤ c2 ∧ c2 ≤ 0xBF then
          let cp := (b - 0xE0) * 4096 + (c1 - 0x80) * 64 + (c2 - 0x80)
          if 0x800 ≤ cp ∧ ¬(0xD800 ≤ cp ∧ cp ≤ 0xDFFF) then
            match utf8Decode rest' with
            | some s => some (cp :: s)
            | none => none
          else none
        else none
      | _ => none
    else if 0xF0 ≤ b ∧ b ≤ 0xF4 then
      match rest with
      | c1 :: c2 :: c3 :: rest' =>
        if 0x80 ≤ c1 ∧ c1 ≤ 0xBF ∧ 0x80 ≤ c2 ∧ c2 ≤ 0xBF ∧
           0x80 ≤ c3 ∧ c3 ≤ 0xBF then
          let cp := (b - 0xF0) * 262144 + (c1 - 0x80) * 4096 +
                    (c2 - 0x80) * 64 + (c3 - 0x80)
          if 0x10000 ≤ cp ∧ cp ≤ 0x10FFFF then
            match utf8Decode rest' with
            | some s => some (cp :: s)
            | none => none
          else none
        else none
      | _ => none
    else none

/-!  ## The remaining scalar encoders (pack.py)  -/

/-- pack.str_: pack `len(value)` — the CHARACTER count — as the VLQ prefix,
then try `bytearray(value, 'ascii')`; on a UnicodeEncodeError fall back to
UTF-8 when the switch is on, else raise PackingError. -/
def Pack.str_ (cfg : Config) (value : List Nat) : Except PackErr (List Nat) :=
  let result := uintEncode value.length
  if asciiEncodable value then .ok (result ++ value)
  else if cfg.UTF8 then .ok (result ++ utf8Encode value)
  else .error .packingError

/-- pack.bool_: `bytearray([value])`, one byte, 1 for True and 0 for False. -/
def Pack.bool_ (value : Bool) : List Nat :=
  [if value then 1 else 0]

/-- pack.none: the empty byte string. -/
def Pack.none : List Nat := []

/-- pack.float_: `struct.pack('>d', value)` — the float's 8-byte big-endian
bit pattern, which is how floats are represented here. -/
def Pack.float_ (bits : List Nat) : List Nat := bits

/-- pack.type_: look the Python type up in the tag table and pack the tag
with the VLQ encoder.  (The KeyError branch of the source is unreachable
from pack.typed, whose handler table contains exactly the seven types.) -/
def Pack.type_ (t : PyType) : List Nat :=
  uintEncode (pyTypeTag t)

/-- The Python type of a tagged value (what `type(value)` dispatches on in
pack.typed and pack.type_). -/
def SBT.pyType : SBT → PyType
  | .null => .tNone
  | .float _ => .tFloat
  | .bool _ => .tBool
  | .int _ => .tInt
  | .str _ => .tStr
  | .list _ => .tList
  | .dict _ => .tDict

/-!  ## The recursive encoder (pack.list_, pack.dict_, pack.typed)  -/

mutual
/-- pack.typed: the tag byte for the value's runtime type followed by the
variant's payload.  For lists and dicts the handler it dispatches to is
pack.list_ / pack.dict_; their bodies (count prefix + entries, see
`Pack.list_` and `Pack.dict_` below, which agree definitionally) are inlined
here so that the mutual recursion is structural. -/
def Pack.typed (cfg : Config) : SBT → Except PackErr (List Nat)
  | .null => .ok (Pack.type_ .tNone ++ Pack.none)
  | .float bits => .ok (Pack.type_ .tFloat ++ Pack.float_ bits)
  | .bool b => .ok (Pack.type_ .tBool ++ Pack.bool_ b)
  | .int n =>
    match Pack.int_ n with
    | .error e => .error e
    | .ok body => .ok (Pack.type_ .tInt ++ body)
  | .str s =>
    match Pack.str_ cfg s with
    | .error e => .error e
    | .ok body => .ok (Pack.type_ .tStr ++ body)
  | .list xs =>
    match Pack.listBody cfg xs with
    | .error e => .error e
    | .ok body => .ok (Pack.type_ .tList ++ (uintEncode xs.length ++ body))
  | .dict es =>
    match Pack.dictBody cfg es with
    | .error e => .error e
    | .ok body => .ok (Pack.type_ .tDict ++ (uintEncode es.length ++ body))

/-- The `for val in value: result.extend(typed(val))` loop of pack.list_. -/
def Pack.listBody (cfg : Config) : SBTList → Except PackErr (List Nat)
  | .nil => .ok []
  | .cons x xs =>
    match Pack.typed cfg x with
    | .error e => .error e
    | .ok hd =>
      match Pack.listBody cfg xs with
      | .error e => .error e
      | .ok tl => .ok (hd ++ tl)

/-- The `for key, val in value.items(): ...` loop of pack.dict_. -/
def Pack.dictBody (cfg : Config) : SBTDict → Except PackErr (List Nat)
  | .nil => .ok []
  | .cons k v es =>
    match Pack.str_ cfg k with
    | .error e => .error e
    | .ok kb =>
      match Pack.typed cfg v with
      | .error e => .error e
      | .ok vb =>
        match Pack.dictBody cfg es with
        | .error e => .error e
        | .ok rest => .ok (kb ++ vb ++ rest)
end

/-- pack.list_: the VLQ element count followed by each element packed as a
full tagged value, in order. -/
def Pack.list_ (cfg : Config) (xs : SBTList) : Except PackErr (List Nat) :=
  match Pack.listBody cfg xs with
  | .error e => .error e
  | .ok body => .ok (uintEncode xs.length ++ body)

/-- pack.dict_: the VLQ entry count followed by, for each entry in iteration
order, the key packed as a string payload (no tag) and the value packed as a
full tagged value. -/
def Pack.dict_ (cfg : Config) (es : SBTDict) : Except PackErr (List Nat) :=
  match Pack.dictBody cfg es with
  | .error e => .error e
  | .ok body => .ok (uintEncode es.length ++ body)

/-- pack.typed on a list is the list tag followed by pack.list_'s output:
the inlining in `Pack.typed` agrees with dispatching to `Pack.list_`. -/
theorem Pack.typed_list_eq (cfg : Config) (xs : SBTList) :
    Pack.typed cfg (.list xs) =
      match Pack.list_ cfg xs with
      | .error e => .error e
      | .ok body => .ok (Pack.type_ .tList ++ body) := by
  unfold Pack.typed Pack.list_
  cases Pack.listBody cfg xs <;> rfl

/-- pack.typed on a dict is the dict tag followed by pack.dict_'s output:
the inlining in `Pack.typed` agrees with dispatching to `Pack.dict_`. -/
theorem Pack.typed_dict_eq (cfg : Config) (es : SBTDict) :
    Pack.typed cfg (.dict es) =
      match Pack.dict_ cfg es with
      | .error e => .error e
      | .ok body => .ok (Pack.type_ .tDict ++ body) := by
  unfold Pack.typed Pack.dict_
  cases Pack.dictBody cfg es <;> rfl

/-- pack.header: `bytearray(save_format) + str_(entity) + bytearray(flags)`.
No length validation is performed on either fixed-size field. -/
def Pack.header (cfg : Config) (save_format : List Nat) (entity : List Nat)
    (flags : List Nat) : Except PackErr (List Nat) :=
  match Pack.str_ cfg entity with
  | .error e => .error e
  | .ok eb => .ok (save_format ++ eb ++ flags)

/-!  ## The decoder's struct helper (unpack.struct)  -/

/-- unpack.struct with format `'{n}c'`, the instantiation unpack.str_ uses:
`unpack_from` needs `n` bytes at `offset` (else `struct.error`), yielding a
tuple of `n` single bytes; they are all `bytes`, so they are joined and
decoded as ASCII; on failure, fall back to a strict UTF-8 decode when the
switch is on (an invalid sequence then raises UnicodeDecodeError, uncaught),
else raise UnpackingError. -/
def Unpack.struct_c (cfg : Config) (n : Nat) (buffer : List Nat)
    (offset : Nat) : Except UnpackErr (List Nat × Nat) :=
  if offset + n ≤ buffer.length then
    if asciiEncodable ((buffer.drop offset).take n) then
      .ok ((buffer.drop offset).take n, offset + n)
    else if cfg.UTF8 then
      match utf8Decode ((buffer.drop offset).take n) with
      | some s => .ok (s, offset + n)
      | none => .error .unicodeDecodeError
    else .error .unpackingError
  else .error .structError

/-- unpack.struct with format `'>d'`, the instantiation unpack.float_ uses:
`unpack_from` needs 8 bytes at `offset` (else `struct.error`); the single
unpacked float is returned as its bit pattern (see the float convention). -/
def Unpack.struct_d (buffer : List Nat) (offset : Nat) :
    Except UnpackErr (List Nat × Nat) :=
  if offset + 8 ≤ buffer.length then
    .ok ((buffer.drop offset).take 8, offset + 8)
  else .error .structError

/-!  ## The scalar decoders (unpack.py)  -/

/-- unpack.str_: VLQ-decode the length, then read that many bytes through
the struct helper. -/
def Unpack.str_ (cfg : Config) (buffer : List Nat) (offset : Nat) :
    Except UnpackErr (List Nat × Nat) :=
  match Unpack.uint buffer offset with
  | .error e => .error e
  | .ok (length, offset) => Unpack.struct_c cfg length buffer offset

/-- unpack.bool_: `bool(buffer[offset])` — any nonzero byte is True — and
advance by one.  Reading past the end is an IndexError. -/
def Unpack.bool_ (buffer : List Nat) (offset : Nat) :
    Except UnpackErr (Bool × Nat) :=
  match buffer[offset]? with
  | none => .error .indexError
  | some b => .ok (b ≠ 0, offset + 1)

/-- unpack.none: always succeeds with the null value, consuming nothing. -/
def Unpack.none (buffer : List Nat) (offset : Nat) :
    Except UnpackErr (SBT × Nat) :=
  .ok (.null, offset)

/-- unpack.float_: 8 bytes through the struct helper. -/
def Unpack.float_ (buffer : List Nat) (offset : Nat) :
    Except UnpackErr (List Nat × Nat) :=
  Unpack.struct_d buffer offset

/-- unpack.type_: VLQ-decode the tag index, then look up
`types[index - 1]` with PYTHON list-indexing semantics — for index 0 the
subscript is -1, which is the LAST table entry (dict), not an error.  Only
an out-of-range subscript raises IndexError, which the source catches and
re-raises as UnpackingError ('unsupported value type'). -/
def Unpack.type_ (buffer : List Nat) (offset : Nat) :
    Except UnpackErr (PyType × Nat) :=
  match Unpack.uint buffer offset with
  | .error e => .error e
  | .ok (index, offset) =>
    match pyListGet pyTypes ((index : Int) - 1) with
    | some t => .ok (t, offset)
    | Option.none => .error .unpackingError

/-!  ## The recursive decoder (unpack.list_, unpack.dict_, unpack.typed)

The mutual recursion is embedded with a fuel argument on which each of the
five functions recurses structurally; every call site passes the callee its
own fuel minus one.  The wrapper `Unpack.typed` passes an allowance larger
than any execution over the given buffer can consume (each tagged value
consumes at least its tag byte, so the recursion is bounded by the buffer
length); the lemmas below compute exactly how much fuel a value needs
(`SBT.cost`) and never rely on the exhaustion branch.  -/

mutual
/-- unpack.typed: decode the type tag, then dispatch to the matching payload
decoder and wrap the payload in its variant. -/
def Unpack.typedGo (cfg : Config) (buffer : List Nat) (offset : Nat) :
    Nat → Except UnpackErr (SBT × Nat)
  | 0 => .error .fuelExhausted
  | fuel + 1 =>
    match Unpack.type_ buffer offset with
    | .error e => .error e
    | .ok (t, offset) =>
      match t with
      | .tNone => Unpack.none buffer offset
      | .tFloat =>
        match Unpack.float_ buffer offset with
        | .error e => .error e
        | .ok (bits, offset) => .ok (.float bits, offset)
      | .tBool =>
        match Unpack.bool_ buffer offset with
        | .error e => .error e
        | .ok (b, offset) => .ok (.bool b, offset)
      | .tInt =>
        match Unpack.int_ buffer offset with
        | .error e => .error e
        | .ok (n, offset) => .ok (.int n, offset)
      | .tStr =>
        match Unpack.str_ cfg buffer offset with
        | .error e => .error e
        | .ok (s, offset) => .ok (.str s, offset)
      | .tList => Unpack.list_ cfg buffer offset fuel
      | .tDict => Unpack.dict_ cfg buffer offset fuel
termination_by structural fuel => fuel

/-- unpack.list_: VLQ-decode the element count then decode that many tagged
values in sequence. -/
def Unpack.list_ (cfg : Config) (buffer : List Nat) (offset : Nat) :
    Nat → Except UnpackErr (SBT × Nat)
  | 0 => .error .fuelExhausted
  | fuel + 1 =>
    match Unpack.uint buffer offset with
    | .error e => .error e
    | .ok (length, offset) =>
      match Unpack.listGo cfg buffer length offset fuel with
      | .error e => .error e
      | .ok (xs, offset) => .ok (.list xs, offset)
termination_by structural fuel => fuel

/-- The `for _ in range(length): item, offset = typed(...)` loop of
unpack.list_, appending each decoded element in order. -/
def Unpack.listGo (cfg : Config) (buffer : List Nat) :
    Nat → Nat → Nat → Except UnpackErr (SBTList × Nat)
  | _, _, 0 => .error .fuelExhausted
  | 0, offset, _ + 1 => .ok (.nil, offset)
  | n + 1, offset, fuel + 1 =>
    match Unpack.typedGo cfg buffer offset fuel with
    | .error e => .error e
    | .ok (x, offset) =>
      match Unpack.listGo cfg buffer n offset fuel with
      | .error e => .error e
      | .ok (xs, offset) => .ok (.cons x xs, offset)
termination_by structural _ _ fuel => fuel

/-- unpack.dict_: VLQ-decode the entry count, start from an empty dict
(OrderedDict or dict according to the switch — both preserve insertion
order), then decode that many key/value pairs. -/
def Unpack.dict_ (cfg : Config) (buffer : List Nat) (offset : Nat) :
    Nat → Except UnpackErr (SBT × Nat)
  | 0 => .error .fuelExhausted
  | fuel + 1 =>
    match Unpack.uint buffer offset with
    | .error e => .error e
    | .ok (length, offset) =>
      match Unpack.dictGo cfg buffer length offset .nil fuel with
      | .error e => .error e
      | .ok (es, offset) => .ok (.dict es, offset)
termination_by structural fuel => fuel

/-- The `for _ in range(length): key, offset = str_(...); item, offset =
typed(...); result[key] = item` loop of unpack.dict_. -/
def Unpack.dictGo (cfg : Config) (buffer : List Nat) :
    Nat → Nat → SBTDict → Nat → Except UnpackErr (SBTDict × Nat)
  | _, _, _, 0 => .error .fuelExhausted
  | 0, offset, acc, _ + 1 => .ok (acc, offset)
  | n + 1, offset, acc, fuel + 1 =>
    match Unpack.str_ cfg buffer offset with
    | .error e => .error e
    | .ok (key, offset) =>
      match Unpack.typedGo cfg buffer offset fuel with
      | .error e => .error e
      | .ok (item, offset) =>
        Unpack.dictGo cfg buffer n offset (acc.setItem key item) fuel
termination_by structural _ _ _ fuel => fuel
end

/-- unpack.typed, the decoder's public recursive entry point (the fuel
allowance exceeds anything reachable over `buffer`; see above). -/
def Unpack.typed (cfg : Config) (buffer : List Nat) (offset : Nat) :
    Except UnpackErr (SBT × Nat) :=
  Unpack.typedGo cfg buffer offset (2 * buffer.length + 2)

/-- unpack.header: slice 6 bytes of format (a Python slice silently
truncates at the end of the buffer), string-decode the entity name, slice 5
bytes of flags (same), and advance the offset by 6 + entity + 5 regardless
of how many bytes the slices actually produced. -/
def Unpack.header (cfg : Config) (buffer : List Nat) (offset : Nat) :
    Except UnpackErr (List Nat × List Nat × List Nat × Nat) :=
  let save_format := (buffer.drop offset).take 6
  let offset := offset + 6
  match Unpack.str_ cfg buffer offset with
  | .error e => .error e
  | .ok (entity, offset) =>
    let flags := (buffer.drop offset).take 5
    .ok (save_format, entity, flags, offset + 5)

/-!  ## Buffer-slicing helpers  -/

/-- If the bytes from `offset` on start with `x` then `buffer[offset]`
reads `x`. -/
theorem getElem?_of_drop_cons {buffer : List Nat} {offset x : Nat}
    {t : List Nat} (h : buffer.drop offset = x :: t) :
    buffer[offset]? = some x := by
  have h0 := List.getElem?_drop buffer offset 0
  rw [h] at h0
  simpa using h0.symm

/-- Consuming the first remaining byte. -/
theorem drop_succ_of_drop_cons {buffer : List Nat} {offset x : Nat}
    {t : List Nat} (h : buffer.drop offset = x :: t) :
    buffer.drop (offset + 1) = t := by
  rw [← List.drop_drop, h]
  simp

/-- Consuming a whole remaining prefix. -/
theorem drop_of_drop_append {buffer a rest : List Nat} {offset : Nat}
    (h : buffer.drop offset = a ++ rest) :
    buffer.drop (offset + a.length) = rest := by
  rw [← List.drop_drop, h, List.drop_left]

/-- A consumed prefix stays inside the buffer (needs the cursor itself to be
inside). -/
theorem add_length_le_of_drop_append {buffer a rest : List Nat}
    {offset : Nat} (hoff : offset ≤ buffer.length)
    (h : buffer.drop offset = a ++ rest) :
    offset + a.length ≤ buffer.length := by
  have hl := congrArg List.length h
  rw [List.length_drop, List.length_append] at hl
  omega

/-- A nonempty remaining prefix keeps the cursor inside the buffer. -/
theorem lt_length_of_drop_cons {buffer : List Nat} {offset x : Nat}
    {t : List Nat} (h : buffer.drop offset = x :: t) :
    offset < buffer.length := by
  have := List.getElem?_eq_some.mp (getElem?_of_drop_cons h)
  exact this.1

/-!  ## Structure of the VLQ encoding  -/

/-- The continuation bytes pack.uint's `while` loop produces for `value`
(most-significant 7-bit group first, each byte with bit 7 set). -/
def hiBytes (value : Nat) : List Nat := uintPackLoop value value []

/-- With fuel at least the value — as at every call site — the pack loop
computes `hiBytes` of the value in front of its accumulator. -/
theorem uintPackLoop_eq_hiBytes (value : Nat) :
    ∀ (fuel : Nat) (acc : List Nat), value ≤ fuel →
      uintPackLoop fuel value acc = hiBytes value ++ acc := by
  induction value using Nat.strong_induction_on with
  | _ value ih =>
    intro fuel acc hf
    by_cases hv : value = 0
    · subst hv
      cases fuel <;> simp [uintPackLoop, hiBytes]
    · have hpos : 0 < value := Nat.pos_of_ne_zero hv
      have hdiv : value / 128 < value := Nat.div_lt_self hpos (by norm_num)
      obtain ⟨f, rfl⟩ : ∃ f, fuel = f + 1 := ⟨fuel - 1, by omega⟩
      obtain ⟨v, hval⟩ : ∃ v, value = v + 1 := ⟨value - 1, by omega⟩
      have hstep : uintPackLoop (f + 1) value acc =
          uintPackLoop f (value / 128) ((value % 128 + 128) :: acc) := by
        rw [uintPackLoop, if_neg hv]
      have hstep' : uintPackLoop value value [] =
          uintPackLoop v (value / 128) ((value % 128 + 128) :: []) := by
        rw [hval, uintPackLoop, if_neg (by omega)]
      have hv2 : hiBytes value = hiBytes (value / 128) ++ [value % 128 + 128] := by
        show uintPackLoop value value [] = _
        rw [hstep', ih (value / 128) hdiv v _ (by omega)]
      rw [hstep, ih (value / 128) hdiv f _ (by omega), hv2]
      simp

/-- pack.uint's output is the continuation bytes of the high part followed
by the bare low 7 bits. -/
theorem uintEncode_eq (n : Nat) :
    uintEncode n = hiBytes (n / 128) ++ [n % 128] :=
  uintPackLoop_eq_hiBytes (n / 128) (n / 128) [n % 128] le_rfl

/-- One step of the `hiBytes` spiral. -/
theorem hiBytes_step {value : Nat} (h : 0 < value) :
    hiBytes value = hiBytes (value / 128) ++ [value % 128 + 128] := by
  obtain ⟨v, rfl⟩ : ∃ v, value = v + 1 := ⟨value - 1, by omega⟩
  have hdiv : (v + 1) / 128 ≤ v := by
    have := Nat.div_lt_self h (show 1 < 128 by norm_num)
    omega
  rw [hiBytes, uintPackLoop, if_neg (by omega),
    uintPackLoop_eq_hiBytes _ v _ hdiv]

/-- Every continuation byte has bit 7 set. -/
theorem hiBytes_cont (value : Nat) :
    ∀ c ∈ hiBytes value, c / 128 % 2 = 1 := by
  induction value using Nat.strong_induction_on with
  | _ value ih =>
    intro c hc
    by_cases hv : value = 0
    · subst hv; simp [hiBytes, uintPackLoop] at hc
    · rw [hiBytes_step (Nat.pos_of_ne_zero hv)] at hc
      rcases List.mem_append.mp hc with h | h
      · exact ih (value / 128) (Nat.div_lt_self (Nat.pos_of_ne_zero hv)
          (by norm_num)) c h
      · have : c = value % 128 + 128 := by simpa using h
        have : c / 128 = 1 := by omega
        omega

/-- Folding the decoder's accumulation over the continuation bytes of
`value` recovers `value` below the previous accumulator. -/
theorem foldl_hiBytes (value : Nat) :
    ∀ acc : Nat,
      List.foldl (fun a c => a * 128 + c % 128) acc (hiBytes value) =
        acc * 128 ^ (hiBytes value).length + value := by
  induction value using Nat.strong_induction_on with
  | _ value ih =>
    intro acc
    by_cases hv : value = 0
    · subst hv
      have : hiBytes 0 = [] := rfl
      simp [this]
    · have hpos : 0 < value := Nat.pos_of_ne_zero hv
      have hdiv : value / 128 < value := Nat.div_lt_self hpos (by norm_num)
      rw [hiBytes_step hpos,
        List.foldl_append (fun a c => a * 128 + c % 128) acc _ _,
        ih (value / 128) hdiv acc]
      have hmod : (value % 128 + 128) % 128 = value % 128 := by omega
      simp only [List.foldl_cons, List.foldl_nil, List.length_append,
        List.length_cons, List.length_nil, hmod]
      rw [pow_succ]
      have := Nat.div_add_mod value 128
      ring_nf
      omega

/-!  ## The VLQ decoder against the encoding  -/

/-- Running the decode loop over a block of continuation bytes accumulates
their 7-bit payloads and moves the cursor past the block. -/
theorem uintUnpackGo_cont (cont : List Nat)
    (hcont : ∀ c ∈ cont, c / 128 % 2 = 1) :
    ∀ (buffer rest : List Nat) (offset value fuel : Nat),
      buffer.drop offset = cont ++ rest → cont.length < fuel →
      uintUnpackGo buffer offset value fuel =
        uintUnpackGo buffer (offset + cont.length)
          (List.foldl (fun a c => a * 128 + c % 128) value cont)
          (fuel - cont.length) := by
  induction cont with
  | nil => intro buffer rest offset value fuel _ _; simp
  | cons c cs ih =>
    intro buffer rest offset value fuel hdrop hfuel
    obtain ⟨f, rfl⟩ : ∃ f, fuel = f + 1 := ⟨fuel - 1, by omega⟩
    have hget : buffer[offset]? = some c := getElem?_of_drop_cons hdrop
    have hstep : uintUnpackGo buffer offset value (f + 1) =
        uintUnpackGo buffer (offset + 1) (value * 128 + c % 128) f := by
      rw [uintUnpackGo, hget]
      simp only [hcont c (by simp)]
      rfl
    rw [hstep, ih (fun x hx => hcont x (by simp [hx]))
      buffer rest (offset + 1) _ f (drop_succ_of_drop_cons hdrop)
      (by simpa using hfuel)]
    simp only [List.length_cons, List.foldl_cons]
    have e1 : offset + 1 + cs.length = offset + (cs.length + 1) := by omega
    have e2 : f - cs.length = f + 1 - (cs.length + 1) := by omega
    rw [e1, e2]

/-- The decode loop applied to pack.uint's output (with any trailing bytes)
returns the packed value and the cursor just past the encoding. -/
theorem uintUnpackGo_encode (n : Nat) (buffer rest : List Nat)
    (offset fuel : Nat) (hdrop : buffer.drop offset = uintEncode n ++ rest)
    (hfuel : (uintEncode n).length ≤ fuel) :
    uintUnpackGo buffer offset 0 fuel =
      .ok (n, offset + (uintEncode n).length) := by
  rw [uintEncode_eq] at hdrop hfuel ⊢
  rw [List.append_assoc] at hdrop
  have hlen : (hiBytes (n / 128) ++ [n % 128]).length =
      (hiBytes (n / 128)).length + 1 := by simp
  rw [uintUnpackGo_cont (hiBytes (n / 128)) (hiBytes_cont (n / 128))
    buffer ([n % 128] ++ rest) offset 0 fuel hdrop (by omega)]
  have hdrop2 : buffer.drop (offset + (hiBytes (n / 128)).length) =
      n % 128 :: rest := drop_of_drop_append hdrop
  have hget : buffer[offset + (hiBytes (n / 128)).length]? = some (n % 128) :=
    getElem?_of_drop_cons hdrop2
  obtain ⟨g, hg⟩ : ∃ g, fuel - (hiBytes (n / 128)).length = g + 1 :=
    ⟨fuel - (hiBytes (n / 128)).length - 1, by omega⟩
  rw [hg]
  have hstep : ∀ V : Nat,
      uintUnpackGo buffer (offset + (hiBytes (n / 128)).length) V (g + 1) =
        if n % 128 / 128 % 2 = 1 then
          uintUnpackGo buffer (offset + (hiBytes (n / 128)).length + 1)
            (V * 128 + n % 128 % 128) g
        else .ok (V * 128 + n % 128 % 128,
          offset + (hiBytes (n / 128)).length + 1) := by
    intro V
    rw [uintUnpackGo, hget]
  rw [hstep, if_neg (by omega : ¬n % 128 / 128 % 2 = 1),
    foldl_hiBytes (n / 128) 0]
  have e1 : (0 * 128 ^ (hiBytes (n / 128)).length + n / 128) * 128 +
      n % 128 % 128 = n := by
    simp only [Nat.zero_mul, Nat.zero_add]
    omega
  have e2 : offset + (hiBytes (n / 128)).length + 1 =
      offset + (hiBytes (n / 128) ++ [n % 128]).length := by
    rw [hlen]; omega
  rw [e1, e2]

/-- unpack.uint reads back exactly what pack.uint wrote, leaving any
trailing bytes unconsumed. -/
theorem uint_roundtrip_at (n : Nat) (buffer rest : List Nat) (offset : Nat)
    (hdrop : buffer.drop offset = uintEncode n ++ rest) :
    Unpack.uint buffer offset = .ok (n, offset + (uintEncode n).length) := by
  have hl := congrArg List.length hdrop
  rw [List.length_drop, List.length_append] at hl
  exact uintUnpackGo_encode n buffer rest offset (buffer.length + 1) hdrop
    (by omega)

/-- The decode loop only moves the cursor forward. -/
theorem uintUnpackGo_mono :
    ∀ (fuel : Nat) (buffer : List Nat) (offset value v off2 : Nat),
      uintUnpackGo buffer offset value fuel = .ok (v, off2) →
      offset < off2 := by
  intro fuel
  induction fuel with
  | zero => intro _ _ _ _ _ h; exact absurd h (by simp [uintUnpackGo])
  | succ f ih =>
    intro buffer offset value v off2 h
    cases hget : buffer[offset]? with
    | none =>
      rw [uintUnpackGo, hget] at h
      exact absurd h (by simp)
    | some tmp =>
      have hstep : uintUnpackGo buffer offset value (f + 1) =
          if tmp / 128 % 2 = 1 then
            uintUnpackGo buffer (offset + 1) (value * 128 + tmp % 128) f
          else .ok (value * 128 + tmp % 128, offset + 1) := by
        rw [uintUnpackGo, hget]
      rw [hstep] at h
      by_cases hc : tmp / 128 % 2 = 1
      · rw [if_pos hc] at h
        have := ih buffer (offset + 1) _ v off2 h
        omega
      · rw [if_neg hc] at h
        cases h
        omega

/-- If every byte from the cursor to the end of the buffer has its
continuation bit set, the decode loop walks off the end and hits the
IndexError of `buffer[offset]`. -/
theorem uintUnpackGo_allCont :
    ∀ (fuel : Nat) (buffer : List Nat) (offset value : Nat),
      buffer.length - offset < fuel →
      (∀ i b, offset ≤ i → buffer[i]? = some b → b / 128 % 2 = 1) →
      uintUnpackGo buffer offset value fuel = .error .indexError := by
  intro fuel
  induction fuel with
  | zero => intro buffer offset value hf _; omega
  | succ f ih =>
    intro buffer offset value hf hcont
    cases hget : buffer[offset]? with
    | none => rw [uintUnpackGo, hget]
    | some tmp =>
      have hin : offset < buffer.length := (List.getElem?_eq_some.mp hget).1
      have hbit := hcont offset tmp le_rfl hget
      have hstep : uintUnpackGo buffer offset value (f + 1) =
          if tmp / 128 % 2 = 1 then
            uintUnpackGo buffer (offset + 1) (value * 128 + tmp % 128) f
          else .ok (value * 128 + tmp % 128, offset + 1) := by
        rw [uintUnpackGo, hget]
      rw [hstep, if_pos hbit]
      exact ih buffer (offset + 1) _ (by omega)
        (fun i b hi => hcont i b (by omega))

/-- The value pack.int_ feeds to the VLQ encoder: twice the magnitude, less
one for negatives. -/
def zigzag (n : Int) : Nat :=
  if n < 0 then 2 * n.natAbs - 1 else 2 * n.natAbs

/-- pack.int_ always succeeds and writes the VLQ encoding of the zig-zag
magnitude. -/
theorem int_pack_eq (n : Int) : Pack.int_ n = .ok (uintEncode (zigzag n)) := by
  have habs : (n * 2).natAbs = 2 * n.natAbs := by omega
  by_cases hn : n < 0
  · simp only [Pack.int_, Pack.uint, zigzag, if_pos hn, habs]
    rw [if_neg (by omega : ¬((2 * n.natAbs - 1 : Nat) : Int) < 0),
      Int.toNat_natCast]
  · simp only [Pack.int_, Pack.uint, zigzag, if_neg hn, habs]
    rw [if_neg (by omega : ¬((2 * n.natAbs : Nat) : Int) < 0),
      Int.toNat_natCast]

/-- Reducing unpack.int_ once its VLQ read is known. -/
theorem int_unpack_unfold {buffer : List Nat} {offset m off2 : Nat}
    (h : uintUnpackGo buffer offset 0 (buffer.length + 1) = .ok (m, off2)) :
    Unpack.int_ buffer offset =
      if m % 2 = 1 then .ok (-((m / 2 + 1 : Nat) : Int), off2)
      else .ok (((m / 2 : Nat) : Int), off2) := by
  rw [Unpack.int_, h]

/-- unpack.int_ reads back exactly what pack.int_ wrote, leaving any
trailing bytes unconsumed. -/
theorem int_roundtrip_at (n : Int) (buffer rest : List Nat) (offset : Nat)
    (hdrop : buffer.drop offset = uintEncode (zigzag n) ++ rest) :
    Unpack.int_ buffer offset =
      .ok (n, offset + (uintEncode (zigzag n)).length) := by
  have hl := congrArg List.length hdrop
  rw [List.length_drop, List.length_append] at hl
  rw [int_unpack_unfold (uintUnpackGo_encode (zigzag n) buffer rest offset
    (buffer.length + 1) hdrop (by omega))]
  unfold zigzag
  by_cases hn : n < 0
  · rw [if_pos hn]
    have hodd : (2 * n.natAbs - 1) % 2 = 1 := by omega
    rw [if_pos hodd]
    have e1 : ((2 * n.natAbs - 1) / 2 + 1 : Nat) = n.natAbs := by omega
    rw [e1]
    have e2 : ((n.natAbs : Int)) = -n := by omega
    rw [e2]
    simp
  · rw [if_neg hn]
    have heven : ¬(2 * n.natAbs) % 2 = 1 := by omega
    rw [if_neg heven]
    have e1 : (2 * n.natAbs) / 2 = n.natAbs := by omega
    rw [e1]
    have e2 : ((n.natAbs : Int)) = n := by omega
    rw [e2]

/-- C3: for every integer n ≥ 0, VLQ-decoding the bytes produced by
VLQ-encoding n, starting at offset 0, returns the pair
(n, len(encode(n))); and zero encodes as the single byte 0x00. -/
theorem c3_uint_roundtrip :
    (∀ n : Nat, Pack.uint (n : Int) = .ok (uintEncode n) ∧
      Unpack.uint (uintEncode n) 0 = .ok (n, (uintEncode n).length)) ∧
    uintEncode 0 = [0] := by
  refine ⟨fun n => ⟨?_, ?_⟩, rfl⟩
  · rw [Pack.uint, if_neg (by omega : ¬(n : Int) < 0), Int.toNat_natCast]
  · have := uint_roundtrip_at n (uintEncode n) [] 0
      (by simp [List.drop_zero])
    simpa using this

/-- C4: the signed-integer encoder maps n to the unsigned magnitude
m = 2|n|, reduced by 1 when n is negative (-1 to 1, 1 to 2, -2 to 3, 2 to 4,
0 to 0), then VLQ-encodes m; and signed-decoding the signed encoding of n
returns (n, len(encoding)). -/
theorem c4_int_zigzag_roundtrip :
    ∀ n : Int,
      Pack.int_ n =
        .ok (uintEncode (if n < 0 then 2 * n.natAbs - 1 else 2 * n.natAbs)) ∧
      Unpack.int_ (uintEncode (zigzag n)) 0 =
        .ok (n, (uintEncode (zigzag n)).length) := by
  intro n
  constructor
  · rw [int_pack_eq, zigzag]
  · have := int_roundtrip_at n (uintEncode (zigzag n)) [] 0
      (by simp [List.drop_zero])
    simpa using this

/-- C10: VLQ decode accepts non-canonical encodings: 0x80 0x00 decodes to
(0, 2), but re-encoding 0 yields the single byte 0x00, so encode-after-decode
is not the identity on byte strings even though decode-after-encode is. -/
theorem c10_noncanonical_vlq :
    Unpack.uint [128, 0] 0 = .ok (0, 2) ∧
    uintEncode 0 = [0] ∧
    uintEncode 0 ≠ [128, 0] ∧
    (∀ n : Nat, Unpack.uint (uintEncode n) 0 = .ok (n, (uintEncode n).length)) := by
  refine ⟨rfl, rfl, by decide, fun n => ?_⟩
  have := uint_roundtrip_at n (uintEncode n) [] 0 (by simp [List.drop_zero])
  simpa using this

/-- C6 counterexample: on the buffer 0x80 (its only byte has the
continuation bit set), unpack.uint raises the untyped builtin IndexError,
not the module's typed UnpackingError — the claimed typed decode error does
not occur. -/
theorem c6_counterexample :
    Unpack.uint [128] 0 = .error .indexError ∧
    UnpackErr.indexError ≠ UnpackErr.unpackingError := ⟨rfl, by decide⟩

/-- C6 amended: for every buffer and offset such that every byte from the
offset to the end of the buffer has the continuation bit (0x80) set, VLQ
decode fails with an untyped IndexError — the out-of-range read
`buffer[offset]` — not with a typed codec error. -/
theorem c6_all_continuation_index_error (buffer : List Nat) (offset : Nat)
    (hcont : ∀ i b, offset ≤ i → buffer[i]? = some b → b / 128 % 2 = 1) :
    Unpack.uint buffer offset = .error .indexError :=
  uintUnpackGo_allCont (buffer.length + 1) buffer offset 0 (by omega) hcont

/-- C6 witness: the amended theorem applied to the concrete two-byte
all-continuation buffer 0x80 0x80. -/
theorem c6_witness : Unpack.uint [128, 128] 0 = .error .indexError := by
  apply c6_all_continuation_index_error
  intro i b _ hb
  have hi : i < 2 := by
    have := (List.getElem?_eq_some.mp hb).1
    simpa using this
  interval_cases i <;>
    (simp only [List.getElem?_cons_zero, List.getElem?_cons_succ,
      Option.some.injEq] at hb; omega)

/-!  ## Cursor monotonicity of the decoders  -/

/-- The struct helper moves the cursor forward by exactly the field size. -/
theorem struct_c_mono {cfg : Config} {n : Nat} {buffer : List Nat}
    {offset : Nat} {s : List Nat} {off2 : Nat}
    (h : Unpack.struct_c cfg n buffer offset = .ok (s, off2)) :
    off2 = offset + n := by
  unfold Unpack.struct_c at h
  split at h
  · split at h
    · cases h; rfl
    · split at h
      · split at h
        · cases h; rfl
        · exact absurd h (by simp)
      · exact absurd h (by simp)
  · exact absurd h (by simp)

/-- unpack.uint only moves the cursor forward. -/
theorem uint_unpack_mono {buffer : List Nat} {offset v off2 : Nat}
    (h : Unpack.uint buffer offset = .ok (v, off2)) : offset < off2 :=
  uintUnpackGo_mono (buffer.length + 1) buffer offset 0 v off2 h

/-- unpack.int_ only moves the cursor forward. -/
theorem int_unpack_mono {buffer : List Nat} {offset : Nat} {v : Int}
    {off2 : Nat} (h : Unpack.int_ buffer offset = .ok (v, off2)) :
    offset < off2 := by
  unfold Unpack.int_ at h
  split at h
  · exact absurd h (by simp)
  · rename_i m o hgo
    split at h <;> (cases h; exact uintUnpackGo_mono _ _ _ _ _ _ hgo)

/-- unpack.str_ only moves the cursor forward. -/
theorem str_unpack_mono {cfg : Config} {buffer : List Nat} {offset : Nat}
    {s : List Nat} {off2 : Nat}
    (h : Unpack.str_ cfg buffer offset = .ok (s, off2)) : offset ≤ off2 := by
  unfold Unpack.str_ at h
  split at h
  · exact absurd h (by simp)
  · rename_i len o hu
    have h1 := uint_unpack_mono hu
    have h2 := struct_c_mono h
    omega

/-- unpack.bool_ only moves the cursor forward. -/
theorem bool_unpack_mono {buffer : List Nat} {offset : Nat} {b : Bool}
    {off2 : Nat} (h : Unpack.bool_ buffer offset = .ok (b, off2)) :
    offset < off2 := by
  unfold Unpack.bool_ at h
  split at h
  · exact absurd h (by simp)
  · cases h; omega

/-- unpack.float_ only moves the cursor forward. -/
theorem float_unpack_mono {buffer : List Nat} {offset : Nat}
    {bits : List Nat} {off2 : Nat}
    (h : Unpack.float_ buffer offset = .ok (bits, off2)) : offset < off2 := by
  unfold Unpack.float_ Unpack.struct_d at h
  split at h
  · cases h; omega
  · exact absurd h (by simp)

/-- unpack.type_ only moves the cursor forward. -/
theorem type_unpack_mono {buffer : List Nat} {offset : Nat} {t : PyType}
    {off2 : Nat} (h : Unpack.type_ buffer offset = .ok (t, off2)) :
    offset < off2 := by
  unfold Unpack.type_ at h
  split at h
  · exact absurd h (by simp)
  · rename_i idx o hu
    split at h
    · cases h; exact uint_unpack_mono hu
    · exact absurd h (by simp)

/-- The recursive decoders only move the cursor forward (simultaneous
induction on the fuel). -/
theorem typedGo_mono :
    ∀ fuel : Nat,
      (∀ cfg buffer offset v off2,
        Unpack.typedGo cfg buffer offset fuel = .ok (v, off2) →
          offset ≤ off2) ∧
      (∀ cfg buffer offset v off2,
        Unpack.list_ cfg buffer offset fuel = .ok (v, off2) →
          offset ≤ off2) ∧
      (∀ cfg buffer n offset v off2,
        Unpack.listGo cfg buffer n offset fuel = .ok (v, off2) →
          offset ≤ off2) ∧
      (∀ cfg buffer offset v off2,
        Unpack.dict_ cfg buffer offset fuel = .ok (v, off2) →
          offset ≤ off2) ∧
      (∀ cfg buffer n offset acc v off2,
        Unpack.dictGo cfg buffer n offset acc fuel = .ok (v, off2) →
          offset ≤ off2) := by
  intro fuel
  induction fuel with
  | zero =>
    refine ⟨?_, ?_, ?_, ?_, ?_⟩ <;>
      (intros cfg buffer; intros;
        simp only [Unpack.typedGo, Unpack.list_, Unpack.listGo,
          Unpack.dict_, Unpack.dictGo] at *; simp_all)
  | succ f ih =>
    obtain ⟨ihT, ihL, ihLG, ihD, ihDG⟩ := ih
    refine ⟨?_, ?_, ?_, ?_, ?_⟩
    · intro cfg buffer offset v off2 h
      rw [Unpack.typedGo] at h
      split at h
      · exact absurd h (by simp)
      · rename_i t o htype
        have h1 := type_unpack_mono htype
        split at h
        · -- tNone
          rw [Unpack.none] at h
          cases h; omega
        · -- tFloat
          split at h
          · exact absurd h (by simp)
          · rename_i bits o2 hf
            cases h
            have := float_unpack_mono hf
            omega
        · -- tBool
          split at h
          · exact absurd h (by simp)
          · rename_i b o2 hb
            cases h
            have := bool_unpack_mono hb
            omega
        · -- tInt
          split at h
          · exact absurd h (by simp)
          · rename_i m o2 hi
            cases h
            have := int_unpack_mono hi
            omega
        · -- tStr
          split at h
          · exact absurd h (by simp)
          · rename_i sv o2 hs
            cases h
            have := str_unpack_mono hs
            omega
        · -- tList
          have := ihL cfg buffer o v off2 h
          omega
        · -- tDict
          have := ihD cfg buffer o v off2 h
          omega
    · intro cfg buffer offset v off2 h
      rw [Unpack.list_] at h
      split at h
      · exact absurd h (by simp)
      · rename_i len o hu
        have h1 := uint_unpack_mono hu
        split at h
        · exact absurd h (by simp)
        · rename_i xs o2 hlg
          cases h
          have := ihLG cfg buffer len o xs off2 hlg
          omega
    · intro cfg buffer n offset v off2 h
      cases n with
      | zero => rw [Unpack.listGo] at h; cases h; omega
      | succ m =>
        rw [Unpack.listGo] at h
        split at h
        · exact absurd h (by simp)
        · rename_i x o hx
          have h1 := ihT cfg buffer offset x o hx
          split at h
          · exact absurd h (by simp)
          · rename_i xs o2 hxs
            cases h
            have := ihLG cfg buffer m o xs off2 hxs
            omega
    · intro cfg buffer offset v off2 h
      rw [Unpack.dict_] at h
      split at h
      · exact absurd h (by simp)
      · rename_i len o hu
        have h1 := uint_unpack_mono hu
        split at h
        · exact absurd h (by simp)
        · rename_i es o2 hdg
          cases h
          have := ihDG cfg buffer len o .nil es off2 hdg
          omega
    · intro cfg buffer n offset acc v off2 h
      cases n with
      | zero => rw [Unpack.dictGo] at h; cases h; omega
      | succ m =>
        rw [Unpack.dictGo] at h
        split at h
        · exact absurd h (by simp)
        · rename_i k o hk
          have h1 := str_unpack_mono hk
          split at h
          · exact absurd h (by simp)
          · rename_i item o2 hitem
            have h2 := ihT cfg buffer o item o2 hitem
            have h3 := ihDG cfg buffer m o2 (acc.setItem k item) v off2 h
            omega

/-- unpack.header only moves the cursor forward. -/
theorem header_unpack_mono {cfg : Config} {buffer : List Nat} {offset : Nat}
    {fmt ent fl : List Nat} {off2 : Nat}
    (h : Unpack.header cfg buffer offset = .ok (fmt, ent, fl, off2)) :
    offset ≤ off2 := by
  simp only [Unpack.header] at h
  split at h
  · exact absurd h (by simp)
  · rename_i e o hs
    cases h
    have := str_unpack_mono hs
    omega

/-- C8: every decoder (unsigned int, signed int, string, bool, null, float,
list, map, tagged-value dispatch, header), whenever it returns successfully,
returns a new offset greater than or equal to the input offset; the null
decoder returns the offset unchanged. -/
theorem c8_decoders_monotone :
    (∀ buffer offset v off2,
      Unpack.uint buffer offset = .ok (v, off2) → offset ≤ off2) ∧
    (∀ buffer offset v off2,
      Unpack.int_ buffer offset = .ok (v, off2) → offset ≤ off2) ∧
    (∀ cfg buffer offset s off2,
      Unpack.str_ cfg buffer offset = .ok (s, off2) → offset ≤ off2) ∧
    (∀ buffer offset b off2,
      Unpack.bool_ buffer offset = .ok (b, off2) → offset ≤ off2) ∧
    (∀ buffer offset, Unpack.none buffer offset = .ok (SBT.null, offset)) ∧
    (∀ buffer offset bits off2,
      Unpack.float_ buffer offset = .ok (bits, off2) → offset ≤ off2) ∧
    (∀ cfg buffer offset fuel v off2,
      Unpack.list_ cfg buffer offset fuel = .ok (v, off2) → offset ≤ off2) ∧
    (∀ cfg buffer offset fuel v off2,
      Unpack.dict_ cfg buffer offset fuel = .ok (v, off2) → offset ≤ off2) ∧
    (∀ cfg buffer offset v off2,
      Unpack.typed cfg buffer offset = .ok (v, off2) → offset ≤ off2) ∧
    (∀ cfg buffer offset fmt ent fl off2,
      Unpack.header cfg buffer offset = .ok (fmt, ent, fl, off2) →
        offset ≤ off2) := by
  refine ⟨?_, ?_, ?_, ?_, ?_, ?_, ?_, ?_, ?_, ?_⟩
  · intro _ _ _ _ h; exact le_of_lt (uint_unpack_mono h)
  · intro _ _ _ _ h; exact le_of_lt (int_unpack_mono h)
  · intro _ _ _ _ _ h; exact str_unpack_mono h
  · intro _ _ _ _ h; exact le_of_lt (bool_unpack_mono h)
  · intro _ _; rfl
  · intro _ _ _ _ h; exact le_of_lt (float_unpack_mono h)
  · intro cfg buffer offset fuel v off2 h
    exact (typedGo_mono fuel).2.1 cfg buffer offset v off2 h
  · intro cfg buffer offset fuel v off2 h
    exact (typedGo_mono fuel).2.2.2.1 cfg buffer offset v off2 h
  · intro cfg buffer offset v off2 h
    exact (typedGo_mono (2 * buffer.length + 2)).1 cfg buffer offset v off2 h
  · intro _ _ _ _ _ _ _ h; exact header_unpack_mono h

/-- C8 witness: the uint and null components of the monotonicity theorem at
concrete inputs. -/
theorem c8_witness :
    Unpack.uint [0] 0 = .ok (0, 1) ∧ (0 : Nat) ≤ 1 ∧
    Unpack.none [] 5 = .ok (SBT.null, 5) :=
  ⟨rfl, c8_decoders_monotone.1 [0] 0 0 1 rfl,
    c8_decoders_monotone.2.2.2.2.1 [] 5⟩

/-!  ## Reading back what the encoder wrote: scalar fields  -/

/-- A VLQ encoding is never empty. -/
theorem uintEncode_length_pos (n : Nat) : 1 ≤ (uintEncode n).length := by
  rw [uintEncode_eq]
  simp

/-- Reducing unpack.str_ once its VLQ length read is known. -/
theorem str_unpack_unfold {cfg : Config} {buffer : List Nat}
    {offset len o : Nat} (h : Unpack.uint buffer offset = .ok (len, o)) :
    Unpack.str_ cfg buffer offset = Unpack.struct_c cfg len buffer o := by
  rw [Unpack.str_, h]

/-- Reducing unpack.type_ once its VLQ tag read is known. -/
theorem type_unpack_unfold {buffer : List Nat} {offset idx o : Nat}
    (h : Unpack.uint buffer offset = .ok (idx, o)) :
    Unpack.type_ buffer offset =
      match pyListGet pyTypes ((idx : Int) - 1) with
      | some t => .ok (t, o)
      | Option.none => .error .unpackingError := by
  rw [Unpack.type_, h]

/-- unpack.str_ reads back an ASCII string exactly as pack.str_ wrote it,
leaving trailing bytes unconsumed (under any configuration: the ASCII path
does not consult the fallback switch). -/
theorem str_roundtrip_at (cfg : Config) (s : List Nat)
    (hascii : asciiEncodable s = true) (buffer rest : List Nat)
    (offset : Nat) (hoff : offset ≤ buffer.length)
    (hdrop : buffer.drop offset = (uintEncode s.length ++ s) ++ rest) :
    Unpack.str_ cfg buffer offset =
      .ok (s, offset + (uintEncode s.length).length + s.length) := by
  rw [List.append_assoc] at hdrop
  rw [str_unpack_unfold (uint_roundtrip_at s.length buffer (s ++ rest)
    offset hdrop)]
  have hoff2 := add_length_le_of_drop_append hoff hdrop
  have hdrop2 : buffer.drop (offset + (uintEncode s.length).length) =
      s ++ rest := drop_of_drop_append hdrop
  have hbound := add_length_le_of_drop_append (by omega) hdrop2
  rw [Unpack.struct_c, if_pos hbound, hdrop2, List.take_left s rest,
    if_pos hascii]

/-- unpack.type_ reads back the tag pack.type_ wrote for any of the seven
types, leaving trailing bytes unconsumed. -/
theorem type_roundtrip_at (t : PyType) (buffer rest : List Nat)
    (offset : Nat)
    (hdrop : buffer.drop offset = uintEncode (pyTypeTag t) ++ rest) :
    Unpack.type_ buffer offset =
      .ok (t, offset + (uintEncode (pyTypeTag t)).length) := by
  rw [type_unpack_unfold (uint_roundtrip_at (pyTypeTag t) buffer rest
    offset hdrop)]
  cases t <;> rfl

/-- unpack.float_ reads back the 8 bytes pack.float_ wrote, leaving
trailing bytes unconsumed. -/
theorem float_roundtrip_at (bits : List Nat) (h8 : bits.length = 8)
    (buffer rest : List Nat) (offset : Nat) (hoff : offset ≤ buffer.length)
    (hdrop : buffer.drop offset = bits ++ rest) :
    Unpack.float_ buffer offset = .ok (bits, offset + 8) := by
  have hbound := add_length_le_of_drop_append hoff hdrop
  have htake : (buffer.drop offset).take 8 = bits := by
    rw [hdrop, ← h8]
    exact List.take_left bits rest
  rw [Unpack.float_, Unpack.struct_d, if_pos (by omega), htake]

/-- unpack.bool_ reads back the byte pack.bool_ wrote, leaving trailing
bytes unconsumed. -/
theorem bool_roundtrip_at (b : Bool) (buffer rest : List Nat) (offset : Nat)
    (hdrop : buffer.drop offset = Pack.bool_ b ++ rest) :
    Unpack.bool_ buffer offset = .ok (b, offset + 1) := by
  have hget : buffer[offset]? = some (if b then 1 else 0) :=
    getElem?_of_drop_cons (by simpa [Pack.bool_] using hdrop)
  rw [Unpack.bool_, hget]
  cases b <;> simp

/-- With the UTF-8 fallback off, a string pack.str_ accepts is ASCII and its
encoding is the character-count prefix followed by the code points. -/
theorem str_pack_ascii {cfg : Config} {s bs : List Nat}
    (hutf : cfg.UTF8 = false) (h : Pack.str_ cfg s = .ok bs) :
    asciiEncodable s = true ∧ bs = uintEncode s.length ++ s := by
  unfold Pack.str_ at h
  split at h
  · cases h
    exact ⟨by assumption, rfl⟩
  · rw [hutf] at h
    simp at h

/-!  ## Fuel accounting for the recursive decoder  -/

/- How much fuel the fueled decoder needs to decode a given value: one unit
per `Unpack.typedGo`/`Unpack.list_`/`Unpack.dict_`/loop entry along the
deepest path. -/
mutual
def SBT.cost : SBT → Nat
  | .null => 1
  | .float _ => 1
  | .bool _ => 1
  | .int _ => 1
  | .str _ => 1
  | .list xs => xs.cost + 2
  | .dict es => es.cost + 2
def SBTList.cost : SBTList → Nat
  | .nil => 1
  | .cons x xs => max x.cost xs.cost + 1
def SBTDict.cost : SBTDict → Nat
  | .nil => 1
  | .cons _ v es => max v.cost es.cost + 1
end

/-- pack.typed output always contains at least the tag byte. -/
theorem typed_pack_length_pos {cfg : Config} {v : SBT} {bs : List Nat}
    (h : Pack.typed cfg v = .ok bs) : 1 ≤ bs.length := by
  have htag : ∀ t : PyType, 1 ≤ (Pack.type_ t).length := fun t =>
    uintEncode_length_pos (pyTypeTag t)
  cases v <;> simp only [Pack.typed] at h
  · cases h
    rw [List.length_append]
    have := htag .tNone
    omega
  · cases h
    rw [List.length_append]
    have := htag .tFloat
    omega
  · cases h
    rw [List.length_append]
    have := htag .tBool
    omega
  · split at h
    · exact absurd h (by simp)
    · cases h
      rw [List.length_append]
      have := htag .tInt
      omega
  · split at h
    · exact absurd h (by simp)
    · cases h
      rw [List.length_append]
      have := htag .tStr
      omega
  · split at h
    · exact absurd h (by simp)
    · cases h
      rw [List.length_append]
      have := htag .tList
      omega
  · split at h
    · exact absurd h (by simp)
    · cases h
      rw [List.length_append]
      have := htag .tDict
      omega

/-- pack.str_ output always contains at least the length prefix. -/
theorem str_pack_length_pos {cfg : Config} {s bs : List Nat}
    (h : Pack.str_ cfg s = .ok bs) : 1 ≤ bs.length := by
  unfold Pack.str_ at h
  have := uintEncode_length_pos s.length
  split at h
  · cases h
    rw [List.length_append]
    omega
  · split at h
    · cases h
      rw [List.length_append]
      omega
    · exact absurd h (by simp)

/- The fuel a value needs is at most twice its encoding's length (each
nesting level contributes at least a tag or count byte). -/
mutual
theorem cost_le_typed (cfg : Config) (v : SBT) :
    ∀ bs : List Nat, Pack.typed cfg v = .ok bs → v.cost ≤ 2 * bs.length := by
  cases v with
  | list xs =>
    intro bs h
    simp only [Pack.typed] at h
    split at h
    · exact absurd h (by simp)
    · rename_i body hbody
      cases h
      have h1 := cost_le_listBody cfg xs body hbody
      have h2 := uintEncode_length_pos xs.length
      have h3 : 1 ≤ (Pack.type_ PyType.tList).length :=
        uintEncode_length_pos (pyTypeTag .tList)
      simp only [SBT.cost, List.length_append]
      omega
  | dict es =>
    intro bs h
    simp only [Pack.typed] at h
    split at h
    · exact absurd h (by simp)
    · rename_i body hbody
      cases h
      have h1 := cost_le_dictBody cfg es body hbody
      have h2 := uintEncode_length_pos es.length
      have h3 : 1 ≤ (Pack.type_ PyType.tDict).length :=
        uintEncode_length_pos (pyTypeTag .tDict)
      simp only [SBT.cost, List.length_append]
      omega
  | null =>
    intro bs h
    have := typed_pack_length_pos h
    simp only [SBT.cost]
    omega
  | float bits =>
    intro bs h
    have := typed_pack_length_pos h
    simp only [SBT.cost]
    omega
  | bool b =>
    intro bs h
    have := typed_pack_length_pos h
    simp only [SBT.cost]
    omega
  | int n =>
    intro bs h
    have := typed_pack_length_pos h
    simp only [SBT.cost]
    omega
  | str sv =>
    intro bs h
    have := typed_pack_length_pos h
    simp only [SBT.cost]
    omega

theorem cost_le_listBody (cfg : Config) (xs : SBTList) :
    ∀ body : List Nat, Pack.listBody cfg xs = .ok body →
      xs.cost ≤ 2 * body.length + 1 := by
  cases xs with
  | nil =>
    intro body h
    cases h
    simp [SBTList.cost]
  | cons x xs =>
    intro body h
    simp only [Pack.listBody] at h
    split at h
    · exact absurd h (by simp)
    · rename_i hd hhd
      split at h
      · exact absurd h (by simp)
      · rename_i tl htl
        cases h
        have h1 := cost_le_typed cfg x hd hhd
        have h2 := cost_le_listBody cfg xs tl htl
        have h3 := typed_pack_length_pos hhd
        simp only [SBTList.cost, List.length_append]
        omega

theorem cost_le_dictBody (cfg : Config) (es : SBTDict) :
    ∀ body : List Nat, Pack.dictBody cfg es = .ok body →
      es.cost ≤ 2 * body.length + 1 := by
  cases es with
  | nil =>
    intro body h
    cases h
    simp [SBTDict.cost]
  | cons k v es =>
    intro body h
    simp only [Pack.dictBody] at h
    split at h
    · exact absurd h (by simp)
    · rename_i kb hkb
      split at h
      · exact absurd h (by simp)
      · rename_i vb hvb
        split at h
        · exact absurd h (by simp)
        · rename_i restb hrest
          cases h
          have h1 := cost_le_typed cfg v vb hvb
          have h2 := cost_le_dictBody cfg es restb hrest
          have h3 := str_pack_length_pos hkb
          simp only [SBTDict.cost, List.length_append]
          omega
end

/-!  ## Insertion-order association lists (Python dict semantics)  -/

/-- A key is in a concatenation when it is in either part. -/
theorem SBTDict.hasKey_append (a b : SBTDict) (k : List Nat) :
    (a.append b).hasKey k = (a.hasKey k || b.hasKey k) := by
  cases a with
  | nil => rfl
  | cons k2 v es =>
    simp [SBTDict.append, SBTDict.hasKey, SBTDict.hasKey_append es b k,
      Bool.or_assoc]

/-- Concatenation of association lists is associative. -/
theorem SBTDict.append_assoc (a b c : SBTDict) :
    (a.append b).append c = a.append (b.append c) := by
  cases a with
  | nil => rfl
  | cons k v es => simp [SBTDict.append, SBTDict.append_assoc es b c]

/-- Assignment `d[key] = v` on a dict that does not contain `key` appends
the new entry at the end. -/
theorem SBTDict.setItem_eq_append {acc : SBTDict} {k : List Nat} {v : SBT}
    (h : acc.hasKey k = false) :
    acc.setItem k v = acc.append (.cons k v .nil) := by
  cases acc with
  | nil => rfl
  | cons k2 w es =>
    simp only [SBTDict.hasKey, Bool.or_eq_false_iff, decide_eq_false_iff_not]
      at h
    simp [SBTDict.setItem, SBTDict.append, if_neg h.1,
      SBTDict.setItem_eq_append h.2]

/-!  ## One-step reductions of the recursive decoder  -/

/-- unpack.typed after reading a null tag. -/
theorem typedGo_none_ok {cfg : Config} {buffer : List Nat}
    {offset fuel o : Nat}
    (h : Unpack.type_ buffer offset = .ok (.tNone, o)) :
    Unpack.typedGo cfg buffer offset (fuel + 1) = .ok (.null, o) := by
  rw [Unpack.typedGo, h]
  rfl

/-- unpack.typed after reading a float tag and its payload. -/
theorem typedGo_float_ok {cfg : Config} {buffer : List Nat}
    {offset fuel o o2 : Nat} {bits : List Nat}
    (h : Unpack.type_ buffer offset = .ok (.tFloat, o))
    (h2 : Unpack.float_ buffer o = .ok (bits, o2)) :
    Unpack.typedGo cfg buffer offset (fuel + 1) = .ok (.float bits, o2) := by
  rw [Unpack.typedGo, h]
  show (match Unpack.float_ buffer o with
    | Except.error e => Except.error e
    | Except.ok (bits, offset) => Except.ok (SBT.float bits, offset)) = _
  rw [h2]

/-- unpack.typed after reading a bool tag and its payload. -/
theorem typedGo_bool_ok {cfg : Config} {buffer : List Nat}
    {offset fuel o o2 : Nat} {b : Bool}
    (h : Unpack.type_ buffer offset = .ok (.tBool, o))
    (h2 : Unpack.bool_ buffer o = .ok (b, o2)) :
    Unpack.typedGo cfg buffer offset (fuel + 1) = .ok (.bool b, o2) := by
  rw [Unpack.typedGo, h]
  show (match Unpack.bool_ buffer o with
    | Except.error e => Except.error e
    | Except.ok (b, offset) => Except.ok (SBT.bool b, offset)) = _
  rw [h2]

/-- unpack.typed after reading an int tag and its payload. -/
theorem typedGo_int_ok {cfg : Config} {buffer : List Nat}
    {offset fuel o o2 : Nat} {n : Int}
    (h : Unpack.type_ buffer offset = .ok (.tInt, o))
    (h2 : Unpack.int_ buffer o = .ok (n, o2)) :
    Unpack.typedGo cfg buffer offset (fuel + 1) = .ok (.int n, o2) := by
  rw [Unpack.typedGo, h]
  show (match Unpack.int_ buffer o with
    | Except.error e => Except.error e
    | Except.ok (n, offset) => Except.ok (SBT.int n, offset)) = _
  rw [h2]

/-- unpack.typed after reading a str tag and its payload. -/
theorem typedGo_str_ok {cfg : Config} {buffer : List Nat}
    {offset fuel o o2 : Nat} {s : List Nat}
    (h : Unpack.type_ buffer offset = .ok (.tStr, o))
    (h2 : Unpack.str_ cfg buffer o = .ok (s, o2)) :
    Unpack.typedGo cfg buffer offset (fuel + 1) = .ok (.str s, o2) := by
  rw [Unpack.typedGo, h]
  show (match Unpack.str_ cfg buffer o with
    | Except.error e => Except.error e
    | Except.ok (s, offset) => Except.ok (SBT.str s, offset)) = _
  rw [h2]

/-- unpack.typed after reading a list tag dispatches to unpack.list_. -/
theorem typedGo_list_ok {cfg : Config} {buffer : List Nat}
    {offset fuel o : Nat}
    (h : Unpack.type_ buffer offset = .ok (.tList, o)) :
    Unpack.typedGo cfg buffer offset (fuel + 1) =
      Unpack.list_ cfg buffer o fuel := by
  rw [Unpack.typedGo, h]

/-- unpack.typed after reading a dict tag dispatches to unpack.dict_. -/
theorem typedGo_dict_ok {cfg : Config} {buffer : List Nat}
    {offset fuel o : Nat}
    (h : Unpack.type_ buffer offset = .ok (.tDict, o)) :
    Unpack.typedGo cfg buffer offset (fuel + 1) =
      Unpack.dict_ cfg buffer o fuel := by
  rw [Unpack.typedGo, h]

/-- unpack.list_ after reading its count and elements. -/
theorem list_unpack_ok {cfg : Config} {buffer : List Nat}
    {offset fuel len o o2 : Nat} {xs : SBTList}
    (h : Unpack.uint buffer offset = .ok (len, o))
    (h2 : Unpack.listGo cfg buffer len o fuel = .ok (xs, o2)) :
    Unpack.list_ cfg buffer offset (fuel + 1) = .ok (.list xs, o2) := by
  rw [Unpack.list_, h]
  show (match Unpack.listGo cfg buffer len o fuel with
    | Except.error e => Except.error e
    | Except.ok (xs, offset) => Except.ok (SBT.list xs, offset)) = _
  rw [h2]

/-- unpack.dict_ after reading its count and entries. -/
theorem dict_unpack_ok {cfg : Config} {buffer : List Nat}
    {offset fuel len o o2 : Nat} {es : SBTDict}
    (h : Unpack.uint buffer offset = .ok (len, o))
    (h2 : Unpack.dictGo cfg buffer len o .nil fuel = .ok (es, o2)) :
    Unpack.dict_ cfg buffer offset (fuel + 1) = .ok (.dict es, o2) := by
  rw [Unpack.dict_, h]
  show (match Unpack.dictGo cfg buffer len o .nil fuel with
    | Except.error e => Except.error e
    | Except.ok (es, offset) => Except.ok (SBT.dict es, offset)) = _
  rw [h2]

/-- One iteration of unpack.list_'s loop. -/
theorem listGo_step {cfg : Config} {buffer : List Nat}
    {n offset fuel o o2 : Nat} {x : SBT} {xs : SBTList}
    (h : Unpack.typedGo cfg buffer offset fuel = .ok (x, o))
    (h2 : Unpack.listGo cfg buffer n o fuel = .ok (xs, o2)) :
    Unpack.listGo cfg buffer (n + 1) offset (fuel + 1) =
      .ok (.cons x xs, o2) := by
  rw [Unpack.listGo, h]
  show (match Unpack.listGo cfg buffer n o fuel with
    | Except.error e => Except.error e
    | Except.ok (xs, offset) => Except.ok (SBTList.cons x xs, offset)) = _
  rw [h2]

/-- One iteration of unpack.dict_'s loop. -/
theorem dictGo_step {cfg : Config} {buffer : List Nat}
    {n offset fuel o o2 : Nat} {key : List Nat} {item : SBT}
    {acc : SBTDict}
    (h : Unpack.str_ cfg buffer offset = .ok (key, o))
    (h2 : Unpack.typedGo cfg buffer o fuel = .ok (item, o2)) :
    Unpack.dictGo cfg buffer (n + 1) offset acc (fuel + 1) =
      Unpack.dictGo cfg buffer n o2 (acc.setItem key item) fuel := by
  rw [Unpack.dictGo, h]
  show (match Unpack.typedGo cfg buffer o fuel with
    | Except.error e => Except.error e
    | .ok (item, offset) =>
        Unpack.dictGo cfg buffer n offset (acc.setItem key item) fuel) = _
  rw [h2]

/-- Every list payload needs at least one unit of fuel. -/
theorem listCost_pos (xs : SBTList) : 1 ≤ xs.cost := by
  cases xs <;> simp [SBTList.cost]

/-- Every dict payload needs at least one unit of fuel. -/
theorem dictCost_pos (es : SBTDict) : 1 ≤ es.cost := by
  cases es <;> simp [SBTDict.cost]

/-- Rewriting only the cursor inside a successful decode result. -/
theorem ok_offset_eq {γ : Type} {v : γ} {a b : Nat} (h : a = b) :
    (Except.ok (v, a) : Except UnpackErr (γ × Nat)) = .ok (v, b) := by
  rw [h]

/-- The empty dict is a right identity of concatenation. -/
theorem SBTDict.append_nil (a : SBTDict) : a.append .nil = a := by
  cases a with
  | nil => rfl
  | cons k v es => simp [SBTDict.append, SBTDict.append_nil es]

mutual
/-- Decoding pack.typed's output (UTF-8 fallback off) returns the packed
value and the cursor just past it, for any fuel at least the value's
cost. -/
theorem typed_roundtrip_at (cfg : Config) (v : SBT) :
    ∀ bs : List Nat, cfg.UTF8 = false → v.valid = true →
      Pack.typed cfg v = .ok bs →
      ∀ (buffer rest : List Nat) (offset fuel : Nat),
        offset ≤ buffer.length → buffer.drop offset = bs ++ rest →
        v.cost ≤ fuel →
        Unpack.typedGo cfg buffer offset fuel =
          .ok (v, offset + bs.length) := by
  cases v with
  | null =>
    intro bs hutf hval henc buffer rest offset fuel hoff hdrop hfuel
    simp only [Pack.typed] at henc
    cases henc
    simp only [SBT.cost] at hfuel
    obtain ⟨f, rfl⟩ : ∃ f, fuel = f + 1 := ⟨fuel - 1, by omega⟩
    have hdrop2 : buffer.drop offset =
        uintEncode (pyTypeTag .tNone) ++ rest := by
      simpa [Pack.type_, Pack.none] using hdrop
    rw [typedGo_none_ok (type_roundtrip_at .tNone buffer rest offset hdrop2)]
    exact ok_offset_eq (by simp [Pack.type_, Pack.none])
  | float bits =>
    intro bs hutf hval henc buffer rest offset fuel hoff hdrop hfuel
    simp only [Pack.typed] at henc
    cases henc
    simp only [SBT.cost] at hfuel
    obtain ⟨f, rfl⟩ : ∃ f, fuel = f + 1 := ⟨fuel - 1, by omega⟩
    have h8 : bits.length = 8 := by simpa [SBT.valid] using hval
    have hdrop2 : buffer.drop offset =
        uintEncode (pyTypeTag .tFloat) ++ (bits ++ rest) := by
      simpa [Pack.type_, Pack.float_, List.append_assoc] using hdrop
    have htype := type_roundtrip_at .tFloat buffer (bits ++ rest) offset hdrop2
    have hoff2 := add_length_le_of_drop_append hoff hdrop2
    have hfl := float_roundtrip_at bits h8 buffer rest
      (offset + (uintEncode (pyTypeTag .tFloat)).length) (by omega)
      (drop_of_drop_append hdrop2)
    rw [typedGo_float_ok htype hfl]
    exact ok_offset_eq (by
      simp only [List.length_append, Pack.type_, Pack.float_, h8]
      omega)
  | bool b =>
    intro bs hutf hval henc buffer rest offset fuel hoff hdrop hfuel
    simp only [Pack.typed] at henc
    cases henc
    simp only [SBT.cost] at hfuel
    obtain ⟨f, rfl⟩ : ∃ f, fuel = f + 1 := ⟨fuel - 1, by omega⟩
    have hdrop2 : buffer.drop offset =
        uintEncode (pyTypeTag .tBool) ++ (Pack.bool_ b ++ rest) := by
      simpa [Pack.type_, List.append_assoc] using hdrop
    have htype := type_roundtrip_at .tBool buffer (Pack.bool_ b ++ rest)
      offset hdrop2
    have hb := bool_roundtrip_at b buffer rest
      (offset + (uintEncode (pyTypeTag .tBool)).length)
      (drop_of_drop_append hdrop2)
    rw [typedGo_bool_ok htype hb]
    exact ok_offset_eq (by
      simp only [List.length_append, Pack.type_, Pack.bool_, List.length_cons,
        List.length_nil]
      omega)
  | int n =>
    intro bs hutf hval henc buffer rest offset fuel hoff hdrop hfuel
    simp only [Pack.typed, int_pack_eq] at henc
    cases henc
    simp only [SBT.cost] at hfuel
    obtain ⟨f, rfl⟩ : ∃ f, fuel = f + 1 := ⟨fuel - 1, by omega⟩
    have hdrop2 : buffer.drop offset =
        uintEncode (pyTypeTag .tInt) ++ (uintEncode (zigzag n) ++ rest) := by
      simpa [Pack.type_, List.append_assoc] using hdrop
    have htype := type_roundtrip_at .tInt buffer
      (uintEncode (zigzag n) ++ rest) offset hdrop2
    have hi := int_roundtrip_at n buffer rest
      (offset + (uintEncode (pyTypeTag .tInt)).length)
      (drop_of_drop_append hdrop2)
    rw [typedGo_int_ok htype hi]
    exact ok_offset_eq (by simp only [List.length_append, Pack.type_]; omega)
  | str sv =>
    intro bs hutf hval henc buffer rest offset fuel hoff hdrop hfuel
    simp only [Pack.typed] at henc
    split at henc
    · exact absurd henc (by simp)
    · rename_i body hbody
      cases henc
      obtain ⟨hascii, rfl⟩ := str_pack_ascii hutf hbody
      simp only [SBT.cost] at hfuel
      obtain ⟨f, rfl⟩ : ∃ f, fuel = f + 1 := ⟨fuel - 1, by omega⟩
      have hdrop2 : buffer.drop offset =
          uintEncode (pyTypeTag .tStr) ++
            ((uintEncode sv.length ++ sv) ++ rest) := by
        simpa [Pack.type_, List.append_assoc] using hdrop
      have htype := type_roundtrip_at .tStr buffer
        ((uintEncode sv.length ++ sv) ++ rest) offset hdrop2
      have hoff2 := add_length_le_of_drop_append hoff hdrop2
      have hs := str_roundtrip_at cfg sv hascii buffer rest
        (offset + (uintEncode (pyTypeTag .tStr)).length) (by omega)
        (drop_of_drop_append hdrop2)
      rw [typedGo_str_ok htype hs]
      exact ok_offset_eq (by
        simp only [List.length_append, Pack.type_]; omega)
  | list xs =>
    intro bs hutf hval henc buffer rest offset fuel hoff hdrop hfuel
    simp only [Pack.typed] at henc
    split at henc
    · exact absurd henc (by simp)
    · rename_i body hbody
      cases henc
      simp only [SBT.valid] at hval
      simp only [SBT.cost] at hfuel
      have hc1 := listCost_pos xs
      obtain ⟨f, rfl⟩ : ∃ f, fuel = f + 1 := ⟨fuel - 1, by omega⟩
      obtain ⟨g, rfl⟩ : ∃ g, f = g + 1 := ⟨f - 1, by omega⟩
      have hdrop2 : buffer.drop offset =
          uintEncode (pyTypeTag .tList) ++
            (uintEncode xs.length ++ (body ++ rest)) := by
        simpa [Pack.type_, List.append_assoc] using hdrop
      have htype := type_roundtrip_at .tList buffer
        (uintEncode xs.length ++ (body ++ rest)) offset hdrop2
      have hoff2 := add_length_le_of_drop_append hoff hdrop2
      have hdrop3 := drop_of_drop_append hdrop2
      have huint := uint_roundtrip_at xs.length buffer (body ++ rest)
        (offset + (uintEncode (pyTypeTag .tList)).length) hdrop3
      have hoff3 := add_length_le_of_drop_append (by omega) hdrop3
      have hdrop4 := drop_of_drop_append hdrop3
      have hgo := listBody_roundtrip_at cfg xs body hutf hval hbody buffer
        rest _ g (by omega) hdrop4 (by omega)
      rw [typedGo_list_ok htype, list_unpack_ok huint hgo]
      exact ok_offset_eq (by
        simp only [List.length_append, Pack.type_]; omega)
  | dict es =>
    intro bs hutf hval henc buffer rest offset fuel hoff hdrop hfuel
    simp only [Pack.typed] at henc
    split at henc
    · exact absurd henc (by simp)
    · rename_i body hbody
      cases henc
      simp only [SBT.valid] at hval
      simp only [SBT.cost] at hfuel
      have hc1 := dictCost_pos es
      obtain ⟨f, rfl⟩ : ∃ f, fuel = f + 1 := ⟨fuel - 1, by omega⟩
      obtain ⟨g, rfl⟩ : ∃ g, f = g + 1 := ⟨f - 1, by omega⟩
      have hdrop2 : buffer.drop offset =
          uintEncode (pyTypeTag .tDict) ++
            (uintEncode es.length ++ (body ++ rest)) := by
        simpa [Pack.type_, List.append_assoc] using hdrop
      have htype := type_roundtrip_at .tDict buffer
        (uintEncode es.length ++ (body ++ rest)) offset hdrop2
      have hoff2 := add_length_le_of_drop_append hoff hdrop2
      have hdrop3 := drop_of_drop_append hdrop2
      have huint := uint_roundtrip_at es.length buffer (body ++ rest)
        (offset + (uintEncode (pyTypeTag .tDict)).length) hdrop3
      have hoff3 := add_length_le_of_drop_append (by omega) hdrop3
      have hdrop4 := drop_of_drop_append hdrop3
      have hgo := dictBody_roundtrip_at cfg es body hutf hval hbody buffer
        rest _ g .nil (by omega) hdrop4 (by omega)
        (fun k _ => rfl)
      rw [typedGo_dict_ok htype, dict_unpack_ok huint hgo]
      exact ok_offset_eq (by
        simp only [List.length_append, Pack.type_]; omega)

/-- Decoding pack.list_'s element block returns the packed elements in
order. -/
theorem listBody_roundtrip_at (cfg : Config) (xs : SBTList) :
    ∀ body : List Nat, cfg.UTF8 = false → xs.valid = true →
      Pack.listBody cfg xs = .ok body →
      ∀ (buffer rest : List Nat) (offset fuel : Nat),
        offset ≤ buffer.length → buffer.drop offset = body ++ rest →
        xs.cost ≤ fuel →
        Unpack.listGo cfg buffer xs.length offset fuel =
          .ok (xs, offset + body.length) := by
  cases xs with
  | nil =>
    intro body hutf hval henc buffer rest offset fuel hoff hdrop hfuel
    cases henc
    simp only [SBTList.cost] at hfuel
    obtain ⟨f, rfl⟩ : ∃ f, fuel = f + 1 := ⟨fuel - 1, by omega⟩
    simp only [SBTList.length]
    rw [Unpack.listGo]
    exact ok_offset_eq (by simp)
  | cons x xs =>
    intro body hutf hval henc buffer rest offset fuel hoff hdrop hfuel
    simp only [Pack.listBody] at henc
    split at henc
    · exact absurd henc (by simp)
    · rename_i hd hhd
      split at henc
      · exact absurd henc (by simp)
      · rename_i tl htl
        cases henc
        simp only [SBTList.valid, Bool.and_eq_true] at hval
        simp only [SBTList.cost] at hfuel
        obtain ⟨f, rfl⟩ : ∃ f, fuel = f + 1 := ⟨fuel - 1, by omega⟩
        have hmax : max x.cost (SBTList.cost xs) ≤ f :=
          Nat.le_of_succ_le_succ hfuel
        have hdrop2 : buffer.drop offset = hd ++ (tl ++ rest) := by
          simpa [List.append_assoc] using hdrop
        have hx := typed_roundtrip_at cfg x hd hutf hval.1 hhd buffer
          (tl ++ rest) offset f hoff hdrop2
          (le_trans (le_max_left _ _) hmax)
        have hoff2 := add_length_le_of_drop_append hoff hdrop2
        have hxs := listBody_roundtrip_at cfg xs tl hutf hval.2 htl buffer
          rest (offset + hd.length) f hoff2 (drop_of_drop_append hdrop2)
          (le_trans (le_max_right _ _) hmax)
        simp only [SBTList.length]
        rw [listGo_step hx hxs]
        exact ok_offset_eq (by simp only [List.length_append]; omega)

/-- Decoding pack.dict_'s entry block inserts the packed entries in order;
when none of the packed keys is already present in the accumulator, the
result is the accumulator followed by the packed entries. -/
theorem dictBody_roundtrip_at (cfg : Config) (es : SBTDict) :
    ∀ body : List Nat, cfg.UTF8 = false → es.valid = true →
      Pack.dictBody cfg es = .ok body →
      ∀ (buffer rest : List Nat) (offset fuel : Nat) (acc : SBTDict),
        offset ≤ buffer.length → buffer.drop offset = body ++ rest →
        es.cost ≤ fuel →
        (∀ k, es.hasKey k = true → acc.hasKey k = false) →
        Unpack.dictGo cfg buffer es.length offset acc fuel =
          .ok (acc.append es, offset + body.length) := by
  cases es with
  | nil =>
    intro body hutf hval henc buffer rest offset fuel acc hoff hdrop hfuel
      hfresh
    cases henc
    simp only [SBTDict.cost] at hfuel
    obtain ⟨f, rfl⟩ : ∃ f, fuel = f + 1 := ⟨fuel - 1, by omega⟩
    simp only [SBTDict.length]
    rw [Unpack.dictGo, SBTDict.append_nil]
    exact ok_offset_eq (by simp)
  | cons k v es =>
    intro body hutf hval henc buffer rest offset fuel acc hoff hdrop hfuel
      hfresh
    simp only [Pack.dictBody] at henc
    split at henc
    · exact absurd henc (by simp)
    · rename_i kb hkb
      split at henc
      · exact absurd henc (by simp)
      · rename_i vb hvb
        split at henc
        · exact absurd henc (by simp)
        · rename_i rb hrb
          cases henc
          simp only [SBTDict.valid, Bool.and_eq_true, Bool.not_eq_true']
            at hval
          obtain ⟨⟨hnk, hvv⟩, hves⟩ := hval
          simp only [SBTDict.cost] at hfuel
          obtain ⟨f, rfl⟩ : ∃ f, fuel = f + 1 := ⟨fuel - 1, by omega⟩
          have hmax : max v.cost (SBTDict.cost es) ≤ f :=
            Nat.le_of_succ_le_succ hfuel
          obtain ⟨hascii, rfl⟩ := str_pack_ascii hutf hkb
          have hdrop2 : buffer.drop offset =
              (uintEncode k.length ++ k) ++ (vb ++ (rb ++ rest)) := by
            simpa [List.append_assoc] using hdrop
          have hk := str_roundtrip_at cfg k hascii buffer
            (vb ++ (rb ++ rest)) offset hoff hdrop2
          have hoff2 := add_length_le_of_drop_append hoff hdrop2
          have hdrop3 := drop_of_drop_append hdrop2
          have e1 : offset + (uintEncode k.length ++ k).length =
              offset + (uintEncode k.length).length + k.length := by
            simp only [List.length_append]
            omega
          rw [e1] at hoff2 hdrop3
          have hv := typed_roundtrip_at cfg v vb hutf hvv hvb buffer
            (rb ++ rest) _ f hoff2 hdrop3
            (le_trans (le_max_left _ _) hmax)
          have hoff3 := add_length_le_of_drop_append hoff2 hdrop3
          have hdrop4 := drop_of_drop_append hdrop3
          have hacck : acc.hasKey k = false := by
            apply hfresh
            simp [SBTDict.hasKey]
          have hfresh2 : ∀ k2, es.hasKey k2 = true →
              (acc.append (.cons k v .nil)).hasKey k2 = false := by
            intro k2 hk2
            rw [SBTDict.hasKey_append]
            have h1 : acc.hasKey k2 = false := by
              apply hfresh
              simp [SBTDict.hasKey, hk2]
            have h2 : ¬(k = k2) := by
              intro he
              rw [he] at hnk
              rw [hnk] at hk2
              cases hk2
            simp [SBTDict.hasKey, h1, h2]
          have hih := dictBody_roundtrip_at cfg es rb hutf hves hrb buffer
            rest _ f (acc.append (.cons k v .nil)) hoff3 hdrop4
            (le_trans (le_max_right _ _) hmax) hfresh2
          simp only [SBTDict.length]
          rw [dictGo_step hk hv, SBTDict.setItem_eq_append hacck, hih,
            SBTDict.append_assoc]
          show Except.ok (acc.append (.cons k v es), _) = _
          exact ok_offset_eq (by simp only [List.length_append]; omega)
end

/-- Reducing unpack.header once its entity-string read is known: both
fixed-size fields are plain slices with no length validation, and the
cursor advances by 6 and by 5 regardless of how many bytes the slices
actually produced. -/
theorem header_unpack_ok {cfg : Config} {buffer : List Nat}
    {offset : Nat} {e : List Nat} {o : Nat}
    (h : Unpack.str_ cfg buffer (offset + 6) = .ok (e, o)) :
    Unpack.header cfg buffer offset =
      .ok ((buffer.drop offset).take 6, e, (buffer.drop o).take 5, o + 5) := by
  simp only [Unpack.header, h]

/-- C5 counterexample: with the order-preservation switch enabled and the
UTF-8 fallback also enabled, the map {"é": None} encodes successfully, but
its encoding carries the character count 1 as the key's length prefix while
2 UTF-8 bytes follow, so decoding fails (an uncaught UnicodeDecodeError on
the lone byte 0xC3) and re-encoding the decode result is impossible:
encode(decode(encode(m))) == encode(m) fails for this m. -/
theorem c5_counterexample :
    Pack.typed ⟨true, false, true⟩ (.dict (.cons [233] .null .nil)) =
      .ok [7, 1, 1, 195, 169, 1] ∧
    (SBT.dict (.cons [233] .null .nil)).valid = true ∧
    Unpack.typed ⟨true, false, true⟩ [7, 1, 1, 195, 169, 1] 0 =
      .error .unicodeDecodeError ∧
    ¬∃ m2 off, Unpack.typed ⟨true, false, true⟩ [7, 1, 1, 195, 169, 1] 0 =
        .ok (m2, off) ∧
      Pack.typed ⟨true, false, true⟩ m2 = .ok [7, 1, 1, 195, 169, 1] := by
  refine ⟨rfl, rfl, rfl, ?_⟩
  rintro ⟨m2, off, h, -⟩
  rw [show Unpack.typed ⟨true, false, true⟩ [7, 1, 1, 195, 169, 1] 0 =
    .error .unicodeDecodeError from rfl] at h
  cases h

/-- C5 amended: with the map order-preservation switch enabled and the
UTF-8 fallback switch disabled, for every map m (distinct keys, 8-byte
float patterns) that encodes successfully, re-encoding the result of
decoding the encoding of m yields a byte sequence identical bit-for-bit to
the original encoding of m. -/
theorem c5_map_reencode_identity (cfg : Config) (es : SBTDict)
    (hutf : cfg.UTF8 = false) (hord : cfg.ORDERED_DICT = true)
    (hval : (SBT.dict es).valid = true) (bs : List Nat)
    (henc : Pack.typed cfg (SBT.dict es) = .ok bs) :
    ∃ m2 off, Unpack.typed cfg bs 0 = .ok (m2, off) ∧
      Pack.typed cfg m2 = .ok bs := by
  refine ⟨.dict es, bs.length, ?_, henc⟩
  have hcost := cost_le_typed cfg (.dict es) bs henc
  have hrt := typed_roundtrip_at cfg (.dict es) bs hutf hval henc bs [] 0
    (2 * bs.length + 2) (by omega) (by simp) (by omega)
  rw [Unpack.typed]
  simpa using hrt

/-- C5 witness: the amended theorem applied to the concrete map {"a": 1}
under the default configuration (order preservation on, UTF-8 fallback
off). -/
theorem c5_witness :
    ∃ m2 off,
      Unpack.typed defaultConfig [7, 1, 1, 97, 4, 2] 0 = .ok (m2, off) ∧
      Pack.typed defaultConfig m2 = .ok [7, 1, 1, 97, 4, 2] :=
  c5_map_reencode_identity defaultConfig (.cons [97] (.int 1) .nil) rfl rfl
    rfl [7, 1, 1, 97, 4, 2] rfl

/-- C7 counterexample: with the UTF-8 fallback enabled, the entity name "é"
is accepted by the string codec, header-encoding succeeds, but decoding the
produced header fails (uncaught UnicodeDecodeError) instead of returning
the three fields: the round trip does not hold for every accepted entity
name. -/
theorem c7_counterexample :
    Pack.header ⟨true, false, true⟩ [83, 66, 86, 74, 48, 49] [233]
        [0, 0, 0, 0, 0] =
      .ok [83, 66, 86, 74, 48, 49, 1, 195, 169, 0, 0, 0, 0, 0] ∧
    Unpack.header ⟨true, false, true⟩
        [83, 66, 86, 74, 48, 49, 1, 195, 169, 0, 0, 0, 0, 0] 0 =
      .error .unicodeDecodeError ∧
    Unpack.header ⟨true, false, true⟩
        [83, 66, 86, 74, 48, 49, 1, 195, 169, 0, 0, 0, 0, 0] 0 ≠
      .ok ([83, 66, 86, 74, 48, 49], [233], [0, 0, 0, 0, 0], 14) := by
  refine ⟨rfl, rfl, fun h => ?_⟩
  rw [show Unpack.header ⟨true, false, true⟩
    [83, 66, 86, 74, 48, 49, 1, 195, 169, 0, 0, 0, 0, 0] 0 =
    .error .unicodeDecodeError from rfl] at h
  cases h

/-- C7 amended: for every 6-byte format identifier, every ASCII entity name
the string codec accepts (equivalently, any accepted entity name with the
UTF-8 fallback disabled), and every 5-byte flags block, decoding the header
produced by header-encoding those three fields, starting at offset 0,
returns the same format bytes, entity name, and flags, together with a new
offset equal to the total length of the encoded header. -/
theorem c7_header_roundtrip (cfg : Config) (hutf : cfg.UTF8 = false)
    (fmt entity flags : List Nat) (h6 : fmt.length = 6)
    (h5 : flags.length = 5) (bs : List Nat)
    (hh : Pack.header cfg fmt entity flags = .ok bs) :
    Unpack.header cfg bs 0 = .ok (fmt, entity, flags, bs.length) := by
  simp only [Pack.header] at hh
  split at hh
  · exact absurd hh (by simp)
  · rename_i eb heb
    cases hh
    obtain ⟨hascii, rfl⟩ := str_pack_ascii hutf heb
    have hlen : ([] : List Nat).length = 0 := rfl
    have hdrop6 : (fmt ++ (uintEncode entity.length ++ entity) ++
        flags).drop 6 = (uintEncode entity.length ++ entity) ++ flags := by
      rw [List.append_assoc, ← h6, List.drop_left]
    have hblen : 6 + ((uintEncode entity.length).length + entity.length) +
        5 = (fmt ++ (uintEncode entity.length ++ entity) ++ flags).length :=
      by
      simp only [List.length_append]
      omega
    have hstr := str_roundtrip_at cfg entity hascii
      (fmt ++ (uintEncode entity.length ++ entity) ++ flags) flags 6
      (by simp only [List.length_append]; omega)
      (by rw [hdrop6])
    have hstr6 : Unpack.str_ cfg
        (fmt ++ (uintEncode entity.length ++ entity) ++ flags) (0 + 6) =
        .ok (entity, 6 + (uintEncode entity.length).length +
          entity.length) := by
      simpa using hstr
    rw [header_unpack_ok hstr6]
    have e1 : ((fmt ++ (uintEncode entity.length ++ entity) ++
        flags).drop 0).take 6 = fmt := by
      rw [List.drop_zero, List.append_assoc, ← h6]
      exact List.take_left fmt _
    have hdropo : (fmt ++ (uintEncode entity.length ++ entity) ++
        flags).drop (6 + (uintEncode entity.length).length +
          entity.length) = flags := by
      have h2 := drop_of_drop_append hdrop6
      rw [List.length_append] at h2
      have e : 6 + ((uintEncode entity.length).length + entity.length) =
          6 + (uintEncode entity.length).length + entity.length := by omega
      rw [e] at h2
      exact h2
    have e2 : ((fmt ++ (uintEncode entity.length ++ entity) ++
        flags).drop (6 + (uintEncode entity.length).length +
          entity.length)).take 5 = flags := by
      rw [hdropo, ← h5, List.take_length]
    have e3 : 6 + (uintEncode entity.length).length + entity.length + 5 =
        (fmt ++ (uintEncode entity.length ++ entity) ++ flags).length := by
      simp only [List.length_append]
      omega
    rw [e1, e2, e3]

/-- C7 witness: the amended theorem at the concrete header
(b"SBVJ01", "a", 5 flag bytes). -/
theorem c7_witness :
    Unpack.header defaultConfig
        [83, 66, 86, 74, 48, 49, 1, 97, 9, 8, 7, 6, 5] 0 =
      .ok ([83, 66, 86, 74, 48, 49], [97], [9, 8, 7, 6, 5], 13) :=
  c7_header_roundtrip defaultConfig rfl [83, 66, 86, 74, 48, 49] [97]
    [9, 8, 7, 6, 5] rfl rfl [83, 66, 86, 74, 48, 49, 1, 97, 9, 8, 7, 6, 5]
    rfl

/-- C9 counterexample: on the empty buffer — which ends before the 6 format
bytes — header decode does NOT return successfully: the entity-string read
at offset 6 raises the untyped IndexError.  (The claimed
no-validation-success behavior holds only for the trailing flags field.) -/
theorem c9_counterexample :
    Unpack.header defaultConfig [] 0 = .error .indexError ∧
    Unpack.header defaultConfig [] 0 ≠ .ok ([], [], [], 11) := by
  refine ⟨rfl, fun h => ?_⟩
  rw [show Unpack.header defaultConfig [] 0 = .error .indexError from rfl]
    at h
  cases h

/-- C9 amended: header decode performs no length validation on its
fixed-size fields in the following sense: whenever the entity-string read
at offset+6 succeeds, decode_header returns successfully with the format
slice and flags slice truncated to however many bytes remain (possibly
fewer than 6 format bytes or fewer than 5 flag bytes, possibly zero) and
still advances the final offset by 5 past the entity; but for a buffer that
ends before the 6 format bytes, the entity-string read itself fails with an
untyped IndexError, so decode_header raises rather than returning. -/
theorem c9_header_no_flags_validation (cfg : Config) (buffer : List Nat)
    (offset : Nat) (e : List Nat) (o : Nat)
    (h : Unpack.str_ cfg buffer (offset + 6) = .ok (e, o)) :
    Unpack.header cfg buffer offset =
      .ok ((buffer.drop offset).take 6, e, (buffer.drop o).take 5, o + 5) :=
  header_unpack_ok h

/-- C9 witness: a 9-byte buffer holding the 6 format bytes, an empty entity
name and only 2 flag bytes: header decode succeeds, returns the 2 remaining
flag bytes, and reports offset 12 — beyond the buffer's end. -/
theorem c9_witness :
    Unpack.header defaultConfig [83, 66, 86, 74, 48, 49, 0, 7, 8] 0 =
      .ok ([83, 66, 86, 74, 48, 49], [], [7, 8], 12) :=
  c9_header_no_flags_validation defaultConfig
    [83, 66, 86, 74, 48, 49, 0, 7, 8] 0 [] 7 rfl

/-- C1: evaluating the decoder at the failing input of the type-tag claim:
VLQ tag 0 is looked up as `types[0 - 1]`, i.e. Python's `types[-1]`, which
is the LAST table entry (dict), so the buffer 0x00 0x00 — tag 0 followed by
a zero entry count — successfully decodes as the empty map instead of
raising UnsupportedType; tags of 8 and above do raise the typed error. -/
theorem c1_tag_zero_decodes_as_map :
    Unpack.type_ [0] 0 = .ok (.tDict, 1) ∧
    Unpack.typed defaultConfig [0, 0] 0 = .ok (.dict .nil, 2) ∧
    Unpack.type_ [8] 0 = .error .unpackingError :=
  ⟨rfl, rfl, rfl⟩

/-- C2: evaluating the string encoder at the failing input of the
length-prefix claim: with the UTF-8 fallback enabled, the one-character
string "é" (U+00E9) is encoded as the VLQ prefix 1 — `len(value)`, the
CHARACTER count — followed by the 2 UTF-8 bytes 0xC3 0xA9, so the prefix
does not equal the number of encoded bytes that follow. -/
theorem c2_len_prefix_is_char_count :
    Pack.str_ ⟨true, false, true⟩ [233] = .ok [1, 195, 169] ∧
    uintEncode ([233] : List Nat).length = [1] ∧
    utf8Encode [233] = [195, 169] ∧
    (utf8Encode [233]).length = 2 ∧
    (1 : Nat) ≠ 2 :=
  ⟨rfl, rfl, rfl, rfl, by decide⟩
